import Mathlib

/-!
Verification development for the contacts-bot student directory: the name
tokenizer and student entity model (src/common/models.py), the search
service (src/search/search_service.py) and the CSV import / reconciliation
service (src/importing/import_service.py), embedded shallowly.

Modeling conventions:
- Python strings are Lean `String`s; character-level operations work on
  `String.data` (`List Char`).
- `unicodedata.normalize("NFKC", s)` is modeled as the identity map: on the
  NFC Latin character domain recognized by the tokenizer's regular
  expression (ASCII letters, precomposed accented Latin letters) and on the
  punctuation rewritten by `normalize`, NFKC acts as the identity.
- `str.lower()` is modeled character-wise for ASCII and Latin-1 letters;
  `str.strip()` strips ASCII whitespace.
- The Firestore document store is an association list from document ids to
  student field records; `stream` yields documents in list order, `add`
  appends under a fresh id, `set(..., merge=False)` overwrites the document.
- Fallible store access (the try/except in `fetch_by_pair`) has no failing
  behavior in the embedding, matching the spec's exclusion of transient
  store failures from the core.
-/

namespace CB

/-- Python ASCII whitespace, for `str.strip()`. -/
def isPyWs (c : Char) : Bool :=
  c.toNat == 32 || c.toNat == 9 || c.toNat == 10 || c.toNat == 13 ||
  c.toNat == 11 || c.toNat == 12

/-- Character-wise model of `str.lower()` on ASCII and Latin-1 letters
(uppercase `A`-`Z` and `À`-`Þ` except `×` shift by 32; all other characters
are returned unchanged). -/
def pyLower (c : Char) : Char :=
  if 65 ≤ c.toNat ∧ c.toNat ≤ 90 then Char.ofNat (c.toNat + 32)
  else if 0xC0 ≤ c.toNat ∧ c.toNat ≤ 0xDE ∧ c.toNat ≠ 0xD7 then Char.ofNat (c.toNat + 32)
  else c

/-- Model of `unicodedata.normalize("NFKC", s)`: the identity on the NFC
Latin domain handled by this development. -/
def nfkc (cs : List Char) : List Char := cs

/-- `str.strip()`: drop leading and trailing whitespace. -/
def stripWs (cs : List Char) : List Char :=
  ((cs.dropWhile isPyWs).reverse.dropWhile isPyWs).reverse

/-- The replacements `’ ‘ → '` (codepoints 0x2019, 0x2018 to 0x27) and
`– — → -` (codepoints 0x2013, 0x2014 to 0x2D) done by `normalize`. -/
def replFancy (c : Char) : Char :=
  if c.toNat = 0x2019 ∨ c.toNat = 0x2018 then Char.ofNat 39
  else if c.toNat = 0x2013 ∨ c.toNat = 0x2014 then Char.ofNat 45
  else c

/-- `normalize` from src/common/models.py: NFKC, lowercase, strip, then
map fancy apostrophes and dashes to plain ones. -/
def normalize (s : String) : String :=
  String.mk ((stripWs ((nfkc s.data).map pyLower)).map replFancy)

/-- The character class of `NAME_TOKEN_RE`: ASCII letters, the accented
Latin ranges `À-Ö`, `Ø-ö`, `ø-ÿ`, `Ā-ž`, `Ḁ-ẕ`, the apostrophes `'` and `’`,
and the hyphen `-`. -/
def isNameTokenChar (c : Char) : Bool :=
  let n := c.toNat
  (65 ≤ n && n ≤ 90) || (97 ≤ n && n ≤ 122) ||
  (0xC0 ≤ n && n ≤ 0xD6) || (0xD8 ≤ n && n ≤ 0xF6) || (0xF8 ≤ n && n ≤ 0xFF) ||
  (0x100 ≤ n && n ≤ 0x17E) || (0x1E00 ≤ n && n ≤ 0x1E95) ||
  n == 39 || n == 0x2019 || n == 45

/-- Helper for `NAME_TOKEN_RE.findall`: collect maximal runs of
token-class characters; `acc` holds the current run reversed. -/
def runsAux : List Char → List Char → List (List Char)
  | [], acc => if acc.isEmpty then [] else [acc.reverse]
  | c :: cs, acc =>
    if isNameTokenChar c then runsAux cs (c :: acc)
    else if acc.isEmpty then runsAux cs []
    else acc.reverse :: runsAux cs []

/-- `NAME_TOKEN_RE.findall`: the maximal runs of token-class characters. -/
def findRuns (cs : List Char) : List (List Char) := runsAux cs []

/-- The characters stripped from token edges by `m.strip("-'")`. -/
def isEdgePunct (c : Char) : Bool := c.toNat == 45 || c.toNat == 39

/-- `m.strip("-'")`: drop leading and trailing hyphens and apostrophes. -/
def stripEdge (t : List Char) : List Char :=
  ((t.dropWhile isEdgePunct).reverse.dropWhile isEdgePunct).reverse

/-- The seen-set insertion of `tokenize_names`: append a token unless it
was already collected. -/
def insertToken (acc : List String) (t : String) : List String :=
  if t ∈ acc then acc else acc ++ [t]

/-- The tokens contributed by one input part: normalize, find the runs,
strip their edges, and drop tokens that became empty. -/
def partTokens (part : String) : List String :=
  (((findRuns (normalize part).data).map (fun r => String.mk (stripEdge r))).filter
    (fun t => t != ""))

/-- `tokenize_names` from src/common/models.py: tokens of all parts in
order, deduplicated keeping the first occurrence; empty parts are
skipped. -/
def tokenize_names (parts : List String) : List String :=
  parts.foldl (fun acc part =>
    if part = "" then acc
    else (partTokens part).foldl insertToken acc) []

/-- `generate_ordered_pairs` from src/common/models.py: every ordered pair
of distinct positions, rendered `"a b"`, in `itertools.permutations`
order. -/
def generate_ordered_pairs (tokens : List String) : List String :=
  (tokens.enum).flatMap (fun p =>
    ((tokens.enum).filter (fun q => q.1 != p.1)).map (fun q => p.2 ++ " " ++ q.2))

/-- The `Student` pydantic model of src/common/models.py (its persisted
fields, i.e. exactly what `model_dump()` returns). -/
structure Student where
  first_name : String
  last_name : String
  name_pairs : List String
  cub_email : String
  personal_email : String
  telegram_name : String
  telegram_id : Int
  admission_year : Int
  scholarship : String
  citizenship : String
  public_comment : String
  secret_comment : String
  matric_number : Option String
deriving DecidableEq, Repr

/-- The `build_name_pairs` model validator: after construction, auto-fill
`name_pairs` from the tokenized names only when it was not supplied
(i.e. is empty). Every `Student(**data)` construction in the sources is
embedded as `build_name_pairs` applied to the raw field record. -/
def build_name_pairs (s : Student) : Student :=
  if s.name_pairs = [] then
    { s with name_pairs := generate_ordered_pairs (tokenize_names [s.first_name, s.last_name]) }
  else s

/-- A student loaded from the store: the document id (`snap.id`, assigned
to `stu.doc_id`) together with the validated model. -/
structure StoredStudent where
  doc_id : String
  stu : Student
deriving DecidableEq, Repr

/-- A normalized CSV row as produced by `_normalize_row`: the nine string
fields carried by the feed. -/
structure Row where
  first_name : String
  last_name : String
  personal_email : String
  cub_email : String
  telegram_name : String
  matric_number : String
  citizenship : String
  scholarship : String
  public_comment : String
deriving DecidableEq, Repr

/-- `str.strip()` on strings. -/
def pyStrip (s : String) : String := String.mk (stripWs s.data)

/-- `str.lower()` on strings (character-wise model). -/
def lowerStr (s : String) : String := String.mk (s.data.map pyLower)

/-- `ImportService._norm`: `(s or "").strip()`. -/
def norm_field (s : String) : String := pyStrip s

/-- `ImportService._norm_email`: `(s or "").strip().lower()`. -/
def norm_email (s : String) : String := lowerStr (pyStrip s)

/-- `ImportService._norm_tg`: strip; blank or a placeholder (`-`, `none`,
`n/a`, `na`, case-insensitive) becomes empty; otherwise prefix `@` unless
already present. -/
def norm_tg (s : String) : String :=
  let t := pyStrip s
  if t = "" ∨ lowerStr t ∈ ["-", "none", "n/a", "na"] then ""
  else if t.data.headD ' ' = '@' then t else "@" ++ t

/-- The Firestore `students` collection: an association list from document
ids to raw student field records, in stream order. -/
abbrev Store := List (String × Student)

def storeIds (st : Store) : List String := st.map (fun kv => kv.1)

/-- A fresh document id: longer than every existing id, hence distinct
from all of them and nonempty (Firestore ids are opaque and fresh; only
those two properties are used). -/
def freshId (st : Store) : String :=
  String.mk (List.replicate ((st.map (fun kv => kv.1.length)).foldr max 0 + 1) 'n')

/-- `collection.add(data)`: create a document under a fresh id. -/
def storeAdd (st : Store) (d : Student) : Store × String :=
  (st ++ [(freshId st, d)], freshId st)

/-- `document(id).set(data, merge=False)`: overwrite the document's fields
wholesale (creating the document when absent). -/
def storeSet (st : Store) (i : String) (d : Student) : Store :=
  if st.any (fun kv => kv.1 == i) then st.map (fun kv => if kv.1 == i then (i, d) else kv)
  else st ++ [(i, d)]

/-- Loading the student collection: each streamed document becomes
`Student(**data)` (running the `build_name_pairs` validator) with
`doc_id = snap.id`, in stream order. Used by `_load_students_index` and
`fetch_all`/`_from_snapshot`. -/
def load_students (st : Store) : List StoredStudent :=
  st.map (fun kv => ⟨kv.1, build_name_pairs kv.2⟩)

/-- The students listed under a (nonempty) email key of the `by_email`
index built by `_load_students_index`: those whose normalized cub or
personal email equals the key, in snapshot order. -/
def byEmailLookup (snap : List StoredStudent) (e : String) : List StoredStudent :=
  snap.filter (fun s => norm_email s.stu.cub_email == e || norm_email s.stu.personal_email == e)

/-- The students listed under a key of the `by_tg` index: those with a
nonblank canonicalized handle whose lowercasing equals the key, in
snapshot order. -/
def byTgLookup (snap : List StoredStudent) (key : String) : List StoredStudent :=
  snap.filter (fun s =>
    norm_tg s.stu.telegram_name != "" && lowerStr (norm_tg s.stu.telegram_name) == key)

/-- Python `dict` assignment `m[k] = v`: replace the value at an existing
key in place, else append the binding. -/
def dictUpsert (m : List (String × StoredStudent)) (k : String) (v : StoredStudent) :
    List (String × StoredStudent) :=
  if m.any (fun kv => kv.1 == k) then m.map (fun kv => if kv.1 == k then (k, v) else kv)
  else m ++ [(k, v)]

/-- The loop `for s in lst: if s.doc_id: matches[s.doc_id] = s`. -/
def upsertAll (m : List (String × StoredStudent)) (L : List StoredStudent) :
    List (String × StoredStudent) :=
  L.foldl (fun m s => if s.doc_id != "" then dictUpsert m s.doc_id s else m) m

/-- The email tier of `_match_students`: iterate the row's cub and
personal emails, and for each nonempty normalized one collect the indexed
students into the `matches` dict. -/
def emailTierDict (snap : List StoredStudent) (row : Row) : List (String × StoredStudent) :=
  ([row.cub_email, row.personal_email]).foldl (fun m em =>
    let emn := norm_email em
    if emn != "" then upsertAll m (byEmailLookup snap emn) else m) []

/-- `_match_students`: the email tier wins if nonempty; otherwise the
telegram tier (for a nonblank canonicalized row handle) wins if nonempty;
otherwise the name-token-subset tier runs when the row has name tokens.
The dict deduplicates by `doc_id`; its values are returned. -/
def match_students (snap : List StoredStudent) (row : Row) : List StoredStudent :=
  let m1 := emailTierDict snap row
  if m1 ≠ [] then m1.map (fun kv => kv.2)
  else
    let tg := norm_tg row.telegram_name
    let m2 := if tg != "" then upsertAll [] (byTgLookup snap (lowerStr tg)) else []
    if m2 ≠ [] then m2.map (fun kv => kv.2)
    else
      let row_tokens := tokenize_names [row.first_name, row.last_name]
      let m3 :=
        if row_tokens ≠ [] then
          snap.foldl (fun m s =>
            if row_tokens.all (fun t =>
                (tokenize_names [s.stu.first_name, s.stu.last_name]).contains t) then
              (if s.doc_id != "" then dictUpsert m s.doc_id s else m)
            else m) m2
        else m2
      m3.map (fun kv => kv.2)

/-- `_is_empty_row`: every one of the nine row fields is empty. -/
def is_empty_row (r : Row) : Bool :=
  r.first_name == "" && r.last_name == "" && r.personal_email == "" && r.cub_email == "" &&
  r.telegram_name == "" && r.matric_number == "" && r.citizenship == "" && r.scholarship == "" &&
  r.public_comment == ""

/-- Python `a or b` on strings (the empty string is falsy). -/
def pyOrS (a b : String) : String := if a = "" then b else a

/-- Python `a or b` on integers (zero is falsy). -/
def pyOrInt (a b : Int) : Int := if a = 0 then b else a

/-- `_merge_into_student_dict(base, row, creating=False)` on a complete
base record (the update path always passes a full `model_dump()`):
each row-supplied field overwrites only when nonempty, `telegram_id`
falls back through `or 0`, `admission_year` through `or default`,
`secret_comment` and `name_pairs` carry over, and the final re-assignment
of `citizenship` re-reads the key set two lines above (a no-op on a
complete base, so the legacy `country` fallback never fires). -/
def mergeUpdate (D : Int) (base : Student) (row : Row) : Student :=
  { first_name := pyOrS row.first_name base.first_name
    last_name := pyOrS row.last_name base.last_name
    cub_email := pyOrS row.cub_email base.cub_email
    personal_email := pyOrS row.personal_email base.personal_email
    telegram_name := pyOrS row.telegram_name base.telegram_name
    matric_number := if row.matric_number = "" then base.matric_number else some row.matric_number
    citizenship := pyOrS row.citizenship base.citizenship
    scholarship := pyOrS row.scholarship base.scholarship
    public_comment := pyOrS row.public_comment base.public_comment
    telegram_id := pyOrInt base.telegram_id 0
    admission_year := pyOrInt base.admission_year D
    secret_comment := base.secret_comment
    name_pairs := base.name_pairs }

/-- `_merge_into_student_dict({}, row, creating=True)` as evaluated on the
empty base: every string field comes from the row (possibly empty),
`matric_number` becomes `None` when blank, `telegram_id` is `0 or 0`,
`admission_year` is `default or default`, `secret_comment` is empty and
`name_pairs` is the empty list (filled later by validation). -/
def createData (D : Int) (row : Row) : Student :=
  { first_name := row.first_name
    last_name := row.last_name
    cub_email := row.cub_email
    personal_email := row.personal_email
    telegram_name := row.telegram_name
    matric_number := if row.matric_number = "" then none else some row.matric_number
    citizenship := row.citizenship
    scholarship := row.scholarship
    public_comment := row.public_comment
    telegram_id := pyOrInt 0 0
    admission_year := pyOrInt D D
    secret_comment := ""
    name_pairs := [] }

/-- `_update_student_if_changed`: merge the row into the student's dump,
re-run model validation (`Student(**new_data)`), compare field-by-field
with the pre-merge dump, and persist via `set(..., merge=False)` only when
something differs. Returns the `changed` flag and the resulting store. -/
def update_student_if_changed (D : Int) (store : Store) (s : StoredStudent) (row : Row) :
    Bool × Store :=
  let current := s.stu
  let newData := build_name_pairs (mergeUpdate D current row)
  let changed : Bool := newData != current
  (changed, if changed && s.doc_id != "" then storeSet store s.doc_id newData else store)

/-- Python `repr` of a list of strings, as interpolated into the ambiguous
reason message. -/
def pyReprStrList (l : List String) : String :=
  "[" ++ String.intercalate ", " (l.map (fun s => "\x27" ++ s ++ "\x27")) ++ "]"

/-- The reason recorded for a multi-match row. -/
def multiReason (ms : List StoredStudent) : String :=
  "multiple matches by keys: " ++
    pyReprStrList ((ms.filter (fun s => s.doc_id != "")).map (fun s => s.doc_id))

structure DuplicateGroup where
  student_id : String
  row_indexes : List Nat
deriving DecidableEq, Repr

structure ImportReport where
  created : Nat
  updated : Nat
  ambiguous_rows : List (Nat × String)
  duplicate_groups : List DuplicateGroup
deriving DecidableEq, Repr

/-- The loop state of `import_csv_file`: the evolving store, the report
counters, and `matched_row_groups`. -/
structure ImpState where
  store : Store
  created : Nat
  updated : Nat
  ambiguous_rows : List (Nat × String)
  groups : List (String × List Nat)
deriving DecidableEq, Repr

/-- `matched_row_groups.setdefault(doc_id, []).append(idx)`. -/
def groupAdd (g : List (String × List Nat)) (id : String) (idx : Nat) :
    List (String × List Nat) :=
  if g.any (fun kv => kv.1 == id) then
    g.map (fun kv => if kv.1 == id then (kv.1, kv.2 ++ [idx]) else kv)
  else g ++ [(id, [idx])]

/-- The decision block of the import loop body, given the computed match
list: create on zero matches, flag ambiguous on several, and otherwise
guard against a missing `doc_id` before updating and recording the row
against the matched student. -/
def processRowWith (D : Int) (st : ImpState) (idx : Nat) (row : Row)
    (ms : List StoredStudent) : ImpState :=
  match ms with
  | [] =>
    { st with
      store := (storeAdd st.store (build_name_pairs (createData D row))).1
      created := st.created + 1 }
  | [s] =>
    if s.doc_id = "" then
      { st with ambiguous_rows := st.ambiguous_rows ++ [(idx, "matched student without doc_id")] }
    else
      let r := update_student_if_changed D st.store s row
      { st with
        store := r.2
        updated := st.updated + (if r.1 then 1 else 0)
        groups := groupAdd st.groups s.doc_id idx }
  | _ => { st with ambiguous_rows := st.ambiguous_rows ++ [(idx, multiReason ms)] }

/-- One iteration of the import loop: skip empty rows, otherwise match
against the snapshot and decide. -/
def processRow (D : Int) (snap : List StoredStudent) (st : ImpState) (ir : Nat × Row) : ImpState :=
  if is_empty_row ir.2 then st
  else processRowWith D st ir.1 ir.2 (match_students snap ir.2)

def importLoop (D : Int) (snap : List StoredStudent) (l : List (Nat × Row)) (st : ImpState) :
    ImpState :=
  l.foldl (processRow D snap) st

/-- The duplicate-group pass: every matched student that accumulated more
than one row index. -/
def finalGroups (g : List (String × List Nat)) : List DuplicateGroup :=
  (g.filter (fun kv => decide (1 < kv.2.length))).map (fun kv => ⟨kv.1, kv.2⟩)

/-- `import_csv_file` after CSV parsing and row normalization (which the
spec assigns to external collaborators): load the snapshot and indices
once, process the normalized rows in order with 1-based indices starting
at 2, then emit the duplicate groups. -/
def import_csv_file (D : Int) (rows : List Row) (store0 : Store) : ImportReport × Store :=
  let snap := load_students store0
  let fin := importLoop D snap (List.enumFrom 2 rows)
    { store := store0, created := 0, updated := 0, ambiguous_rows := [], groups := [] }
  let rep : ImportReport :=
    { created := fin.created
      updated := fin.updated
      ambiguous_rows := fin.ambiguous_rows
      duplicate_groups := finalGroups fin.groups }
  (rep, fin.store)

/-- `fetch_by_pair`: the students whose stored `name_pairs` array contains
the exact pair string, loaded through `_from_snapshot`. -/
def fetch_by_pair (st : Store) (pair : String) : List StoredStudent :=
  (st.filter (fun kv => kv.2.name_pairs.contains pair)).map
    (fun kv => ⟨kv.1, build_name_pairs kv.2⟩)

/-- `fetch_all`: the whole collection, loaded through `_from_snapshot`. -/
def fetch_all (st : Store) : List StoredStudent := load_students st

/-- `search_students`: tokenize the normalized query; empty queries return
nothing; with two or more tokens try every ordered pair against the
`name_pairs` index and return the deduplicated union when nonempty;
otherwise scan all students and keep those whose tokenized first or last
name contains the first query token. The fallback starts from the `found`
dict, which is necessarily empty on that path. -/
def search_students (st : Store) (query : String) : List StoredStudent :=
  let q := normalize query
  let tokens := tokenize_names [q]
  if tokens = [] then []
  else
    let found :=
      if 2 ≤ tokens.length then
        (generate_ordered_pairs tokens).foldl (fun m pair => upsertAll m (fetch_by_pair st pair)) []
      else []
    if 2 ≤ tokens.length ∧ found ≠ [] then found.map (fun kv => kv.2)
    else
      let tok := tokens.headD ""
      ((fetch_all st).foldl (fun m s =>
        if (tokenize_names [normalize s.stu.first_name]).contains tok ||
           (tokenize_names [normalize s.stu.last_name]).contains tok then
          (if s.doc_id != "" then dictUpsert m s.doc_id s else m)
        else m) found).map (fun kv => kv.2)

/-! ### Basic facts about the validator and the merge -/

@[simp] theorem bnp_first_name (s : Student) : (build_name_pairs s).first_name = s.first_name := by
  unfold build_name_pairs; split <;> rfl

@[simp] theorem bnp_last_name (s : Student) : (build_name_pairs s).last_name = s.last_name := by
  unfold build_name_pairs; split <;> rfl

@[simp] theorem bnp_cub_email (s : Student) : (build_name_pairs s).cub_email = s.cub_email := by
  unfold build_name_pairs; split <;> rfl

@[simp] theorem bnp_personal_email (s : Student) :
    (build_name_pairs s).personal_email = s.personal_email := by
  unfold build_name_pairs; split <;> rfl

@[simp] theorem bnp_telegram_name (s : Student) :
    (build_name_pairs s).telegram_name = s.telegram_name := by
  unfold build_name_pairs; split <;> rfl

@[simp] theorem bnp_telegram_id (s : Student) : (build_name_pairs s).telegram_id = s.telegram_id := by
  unfold build_name_pairs; split <;> rfl

@[simp] theorem bnp_admission_year (s : Student) :
    (build_name_pairs s).admission_year = s.admission_year := by
  unfold build_name_pairs; split <;> rfl

@[simp] theorem bnp_scholarship (s : Student) : (build_name_pairs s).scholarship = s.scholarship := by
  unfold build_name_pairs; split <;> rfl

@[simp] theorem bnp_citizenship (s : Student) : (build_name_pairs s).citizenship = s.citizenship := by
  unfold build_name_pairs; split <;> rfl

@[simp] theorem bnp_public_comment (s : Student) :
    (build_name_pairs s).public_comment = s.public_comment := by
  unfold build_name_pairs; split <;> rfl

@[simp] theorem bnp_secret_comment (s : Student) :
    (build_name_pairs s).secret_comment = s.secret_comment := by
  unfold build_name_pairs; split <;> rfl

@[simp] theorem bnp_matric_number (s : Student) :
    (build_name_pairs s).matric_number = s.matric_number := by
  unfold build_name_pairs; split <;> rfl

theorem bnp_name_pairs (s : Student) :
    (build_name_pairs s).name_pairs =
      if s.name_pairs = [] then
        generate_ordered_pairs (tokenize_names [s.first_name, s.last_name])
      else s.name_pairs := by
  unfold build_name_pairs; split <;> rfl

theorem set_pairs_self (s : Student) : { s with name_pairs := s.name_pairs } = s := rfl

theorem bnp_idem (s : Student) : build_name_pairs (build_name_pairs s) = build_name_pairs s := by
  by_cases h : s.name_pairs = []
  · show build_name_pairs (build_name_pairs s) = _
    unfold build_name_pairs
    simp only [h, if_true]
    split <;> simp_all
  · unfold build_name_pairs
    simp [h]

theorem bnp_pairs_set (s : Student) :
    build_name_pairs { s with name_pairs := (build_name_pairs s).name_pairs } =
      build_name_pairs s := by
  by_cases h : s.name_pairs = []
  · unfold build_name_pairs
    simp only [h, if_true]
    split <;> simp_all
  · rw [bnp_name_pairs, if_neg h, set_pairs_self]

theorem pyOrS_self (a : String) : pyOrS a a = a := by
  unfold pyOrS; split <;> simp_all

theorem pyOrS_absorb (a b : String) : pyOrS a (pyOrS a b) = pyOrS a b := by
  unfold pyOrS; split <;> simp_all

theorem pyOrInt_absorb (a c : Int) : pyOrInt (pyOrInt a c) c = pyOrInt a c := by
  by_cases h : a = 0 <;> by_cases h2 : c = 0 <;> simp [pyOrInt, h, h2]

/-- Merging the same row into an already-merged record changes nothing:
the merge is per-field idempotent. -/
theorem mergeUpdate_idem (D : Int) (b : Student) (r : Row) :
    mergeUpdate D (mergeUpdate D b r) r = mergeUpdate D b r := by
  unfold mergeUpdate
  congr 1 <;>
    first
      | exact pyOrS_absorb _ _
      | exact pyOrInt_absorb _ _
      | (split <;> simp_all)
      | rfl

/-- The validator only touches `name_pairs`, so merging into a validated
base is merging into the raw base with the validated pairs carried over. -/
theorem mergeUpdate_bnp (D : Int) (x : Student) (r : Row) :
    mergeUpdate D (build_name_pairs x) r =
      { mergeUpdate D x r with name_pairs := (build_name_pairs x).name_pairs } := by
  unfold build_name_pairs
  split <;> rfl

/-- Merging the same row into a freshly created record changes nothing. -/
theorem mergeUpdate_createData (D : Int) (r : Row) :
    mergeUpdate D (createData D r) r = createData D r := by
  unfold mergeUpdate createData
  congr 1 <;>
    first
      | exact pyOrS_self _
      | exact pyOrInt_absorb _ _
      | (split <;> simp_all)
      | rfl

/-- The persisted result of an update is a fixed point of update-then-
validate: re-merging the same row and re-validating reproduces it. -/
theorem merge_fixed_of_merged (D : Int) (b : Student) (r : Row) :
    build_name_pairs (mergeUpdate D (build_name_pairs (mergeUpdate D b r)) r) =
      build_name_pairs (mergeUpdate D b r) := by
  rw [mergeUpdate_bnp, mergeUpdate_idem]
  exact bnp_pairs_set (mergeUpdate D b r)

/-- The persisted result of a creation is likewise a fixed point of
update-then-validate. -/
theorem merge_fixed_of_created (D : Int) (r : Row) :
    build_name_pairs (mergeUpdate D (build_name_pairs (createData D r)) r) =
      build_name_pairs (createData D r) := by
  rw [mergeUpdate_bnp, mergeUpdate_createData]
  exact bnp_pairs_set (createData D r)

/-! ### Dictionary lemmas: the `matches` dict deduplicates by document id -/

/-- Well-formedness of a snapshot: document ids are pairwise distinct and
nonempty (Firestore guarantees both for a streamed collection). -/
def SnapWF (snap : List StoredStudent) : Prop :=
  (snap.map (fun s => s.doc_id)).Nodup ∧ ∀ s ∈ snap, s.doc_id ≠ ""

/-- Invariant of the `matches` dict: every value comes from the snapshot
and sits under its own document id. -/
def GoodDict (snap : List StoredStudent) (m : List (String × StoredStudent)) : Prop :=
  ∀ kv ∈ m, kv.2 ∈ snap ∧ kv.2.doc_id = kv.1

theorem goodDict_nil (snap : List StoredStudent) : GoodDict snap [] := by
  intro kv h; cases h

theorem snap_inj {snap : List StoredStudent} (hs : SnapWF snap) {x y : StoredStudent}
    (hx : x ∈ snap) (hy : y ∈ snap) (h : x.doc_id = y.doc_id) : x = y :=
  List.inj_on_of_nodup_map hs.1 hx hy h

theorem any_key_iff (m : List (String × StoredStudent)) (k : String) :
    (m.any (fun kv => kv.1 == k)) = true ↔ k ∈ m.map (fun kv => kv.1) := by
  rw [List.any_eq_true]
  constructor
  · rintro ⟨kv, hkv, hb⟩
    exact List.mem_map.mpr ⟨kv, hkv, (beq_iff_eq.mp hb).symm ▸ rfl⟩
  · rintro h
    obtain ⟨kv, hkv, hk⟩ := List.mem_map.mp h
    exact ⟨kv, hkv, beq_iff_eq.mpr hk⟩

theorem dictUpsert_of_present {snap : List StoredStudent} {m} {v : StoredStudent}
    (hs : SnapWF snap) (hm : GoodDict snap m) (hv : v ∈ snap)
    (hk : v.doc_id ∈ m.map (fun kv => kv.1)) : dictUpsert m v.doc_id v = m := by
  unfold dictUpsert
  rw [if_pos ((any_key_iff m v.doc_id).mpr hk)]
  rw [List.map_congr_left, List.map_id]
  intro kv hkv
  obtain ⟨k1, v1⟩ := kv
  by_cases h : k1 = v.doc_id
  · have h2 := hm (k1, v1) hkv
    have hv2 : v1 = v := snap_inj hs h2.1 hv (h2.2.trans h)
    simp [h, hv2]
  · simp [h]

theorem dictUpsert_of_absent {m} {v : StoredStudent}
    (hk : v.doc_id ∉ m.map (fun kv => kv.1)) :
    dictUpsert m v.doc_id v = m ++ [(v.doc_id, v)] := by
  unfold dictUpsert
  rw [if_neg]
  simp only [ne_eq, any_key_iff]
  exact hk

theorem goodDict_dictUpsert {snap m} {v : StoredStudent} (hs : SnapWF snap)
    (hm : GoodDict snap m) (hv : v ∈ snap) :
    GoodDict snap (dictUpsert m v.doc_id v) := by
  by_cases hk : v.doc_id ∈ m.map (fun kv => kv.1)
  · rw [dictUpsert_of_present hs hm hv hk]; exact hm
  · rw [dictUpsert_of_absent hk]
    intro kv hkv
    rcases List.mem_append.mp hkv with h | h
    · exact hm kv h
    · simp at h
      subst h; exact ⟨hv, rfl⟩

theorem mem_values_dictUpsert {snap m} {v : StoredStudent} (hs : SnapWF snap)
    (hm : GoodDict snap m) (hv : v ∈ snap) {x : StoredStudent} :
    x ∈ (dictUpsert m v.doc_id v).map (fun kv => kv.2) ↔
      x ∈ m.map (fun kv => kv.2) ∨ x = v := by
  by_cases hk : v.doc_id ∈ m.map (fun kv => kv.1)
  · rw [dictUpsert_of_present hs hm hv hk]
    constructor
    · exact Or.inl
    · rintro (h | rfl)
      · exact h
      · obtain ⟨kv, hkv, hkk⟩ := List.mem_map.mp hk
        have h2 := hm kv hkv
        have : kv.2 = x := snap_inj hs h2.1 hv (h2.2.trans hkk)
        exact List.mem_map.mpr ⟨kv, hkv, this⟩
  · rw [dictUpsert_of_absent hk]
    simp only [List.map_append, List.mem_append, List.map_cons, List.map_nil,
      List.mem_singleton, List.mem_cons]
    tauto

theorem keys_dictUpsert_nodup {m} {k : String} {v : StoredStudent}
    (h : (m.map (fun kv => kv.1)).Nodup) :
    ((dictUpsert m k v).map (fun kv => kv.1)).Nodup := by
  unfold dictUpsert
  split
  · have : (m.map (fun kv => if kv.1 == k then (k, v) else kv)).map (fun kv => kv.1) =
        m.map (fun kv => kv.1) := by
      rw [List.map_map]
      apply List.map_congr_left
      intro kv _
      by_cases hk : kv.1 = k
      · simp [hk]
      · simp [hk]
    rw [this]; exact h
  · rename_i hnot
    simp only [List.map_append, List.map_cons, List.map_nil]
    rw [List.nodup_append]
    refine ⟨h, List.nodup_singleton _, ?_⟩
    intro a ha hb
    simp at hb
    subst hb
    exact hnot (by simpa [any_key_iff] using ha)

theorem upsertAll_good_and_mem {snap : List StoredStudent} (hs : SnapWF snap) :
    ∀ (L : List StoredStudent) (m) (_ : GoodDict snap m) (_ : ∀ s ∈ L, s ∈ snap),
      GoodDict snap (upsertAll m L) ∧
      (∀ x, x ∈ (upsertAll m L).map (fun kv => kv.2) ↔
        x ∈ m.map (fun kv => kv.2) ∨ x ∈ L) := by
  intro L
  induction L with
  | nil => intro m hm _; exact ⟨hm, fun x => by simp [upsertAll]⟩
  | cons s L ih =>
    intro m hm hL
    have hsmem : s ∈ snap := hL s (List.mem_cons_self s L)
    have hid : s.doc_id ≠ "" := hs.2 s hsmem
    have step : upsertAll m (s :: L) = upsertAll (dictUpsert m s.doc_id s) L := by
      unfold upsertAll
      simp only [List.foldl_cons]
      rw [if_pos (by simpa [bne_iff_ne] using hid)]
    rw [step]
    have hm2 := goodDict_dictUpsert hs hm hsmem
    obtain ⟨hg, hmem⟩ := ih (dictUpsert m s.doc_id s) hm2 (fun t ht => hL t (List.mem_cons_of_mem s ht))
    refine ⟨hg, fun x => ?_⟩
    rw [hmem x, mem_values_dictUpsert hs hm hsmem]
    simp only [List.mem_cons]
    tauto

theorem keys_upsertAll_nodup {m} (L : List StoredStudent)
    (h : (m.map (fun kv => kv.1)).Nodup) :
    ((upsertAll m L).map (fun kv => kv.1)).Nodup := by
  induction L generalizing m with
  | nil => exact h
  | cons s L ih =>
    unfold upsertAll
    simp only [List.foldl_cons]
    by_cases hid : (s.doc_id != "") = true
    · rw [if_pos hid]
      exact ih (keys_dictUpsert_nodup h)
    · rw [if_neg hid]
      exact ih h

/-- Values of a `GoodDict` carry pairwise distinct ids; if all of them
equal one student `s`, the value list is exactly `[s]`. -/
theorem values_singleton {snap m} {s : StoredStudent} (hm : GoodDict snap m)
    (hkeys : (m.map (fun kv => kv.1)).Nodup)
    (hall : ∀ x ∈ m.map (fun kv => kv.2), x = s) (hne : m ≠ []) :
    m.map (fun kv => kv.2) = [s] := by
  match m, hne with
  | kv :: rest, _ =>
    have h1 : kv.2 = s := hall kv.2 (by simp)
    have hrest : rest = [] := by
      cases rest with
      | nil => rfl
      | cons kv2 rest2 =>
        exfalso
        have h2 : kv2.2 = s := hall kv2.2 (by simp)
        have e1 : kv.1 = s.doc_id := by
          have h3 := (hm kv (by simp)).2
          rw [h1] at h3
          exact h3.symm
        have e2 : kv2.1 = s.doc_id := by
          have h3 := (hm kv2 (by simp)).2
          rw [h2] at h3
          exact h3.symm
        have : kv.1 ∉ (kv2 :: rest2).map (fun kv => kv.1) := by
          have := hkeys
          simp only [List.map_cons, List.nodup_cons] at this
          exact fun hc => this.1 hc
        exact this (by simp [e1, e2])
    subst hrest
    simp [h1]

/-! ### Tier predicates and the characterization of `_match_students` -/

/-- A stored student matches the email tier: one of the row's nonempty
normalized emails equals one of the student's normalized emails. -/
def emailPred (row : Row) (s : StoredStudent) : Prop :=
  (norm_email row.cub_email ≠ "" ∧
    (norm_email s.stu.cub_email = norm_email row.cub_email ∨
     norm_email s.stu.personal_email = norm_email row.cub_email)) ∨
  (norm_email row.personal_email ≠ "" ∧
    (norm_email s.stu.cub_email = norm_email row.personal_email ∨
     norm_email s.stu.personal_email = norm_email row.personal_email))

/-- A stored student matches the telegram tier: both handles canonicalize
to nonblank values that agree case-insensitively. -/
def tgPred (row : Row) (s : StoredStudent) : Prop :=
  norm_tg row.telegram_name ≠ "" ∧ norm_tg s.stu.telegram_name ≠ "" ∧
  lowerStr (norm_tg s.stu.telegram_name) = lowerStr (norm_tg row.telegram_name)

/-- A stored student matches the name tier: the row has name tokens and
they all occur among the student's name tokens. -/
def namePred (row : Row) (s : StoredStudent) : Prop :=
  tokenize_names [row.first_name, row.last_name] ≠ [] ∧
  ∀ t ∈ tokenize_names [row.first_name, row.last_name],
    t ∈ tokenize_names [s.stu.first_name, s.stu.last_name]

theorem mem_byEmailLookup {snap : List StoredStudent} {e : String} {x : StoredStudent} :
    x ∈ byEmailLookup snap e ↔
      x ∈ snap ∧ (norm_email x.stu.cub_email = e ∨ norm_email x.stu.personal_email = e) := by
  unfold byEmailLookup
  rw [List.mem_filter]
  simp

theorem mem_byTgLookup {snap : List StoredStudent} {key : String} {x : StoredStudent} :
    x ∈ byTgLookup snap key ↔
      x ∈ snap ∧ norm_tg x.stu.telegram_name ≠ "" ∧
        lowerStr (norm_tg x.stu.telegram_name) = key := by
  unfold byTgLookup
  rw [List.mem_filter]
  simp [bne_iff_ne]

theorem emailTier_good_and_mem {snap : List StoredStudent} (hs : SnapWF snap) (row : Row) :
    GoodDict snap (emailTierDict snap row) ∧
      ∀ x, x ∈ (emailTierDict snap row).map (fun kv => kv.2) ↔ x ∈ snap ∧ emailPred row x := by
  unfold emailTierDict
  simp only [List.foldl_cons, List.foldl_nil]
  by_cases h2 : norm_email row.personal_email = ""
  · rw [if_neg (by simp [bne_iff_ne, h2])]
    by_cases h1 : norm_email row.cub_email = ""
    · rw [if_neg (by simp [bne_iff_ne, h1])]
      refine ⟨goodDict_nil snap, fun x => ?_⟩
      simp [emailPred, h1, h2]
    · rw [if_pos (by simpa [bne_iff_ne] using h1)]
      obtain ⟨hg, hm⟩ := upsertAll_good_and_mem hs
        (byEmailLookup snap (norm_email row.cub_email)) [] (goodDict_nil snap)
        (fun t ht => (mem_byEmailLookup.mp ht).1)
      refine ⟨hg, fun x => ?_⟩
      rw [hm x]
      simp only [List.map_nil, List.not_mem_nil, false_or, mem_byEmailLookup]
      unfold emailPred
      constructor
      · rintro ⟨hx, h⟩; exact ⟨hx, Or.inl ⟨h1, h⟩⟩
      · rintro ⟨hx, (⟨_, h⟩ | ⟨hp, _⟩)⟩
        · exact ⟨hx, h⟩
        · exact absurd h2 hp
  · rw [if_pos (by simpa [bne_iff_ne] using h2)]
    by_cases h1 : norm_email row.cub_email = ""
    · rw [if_neg (by simp [bne_iff_ne, h1])]
      obtain ⟨hg, hm⟩ := upsertAll_good_and_mem hs
        (byEmailLookup snap (norm_email row.personal_email)) [] (goodDict_nil snap)
        (fun t ht => (mem_byEmailLookup.mp ht).1)
      refine ⟨hg, fun x => ?_⟩
      rw [hm x]
      simp only [List.map_nil, List.not_mem_nil, false_or, mem_byEmailLookup]
      unfold emailPred
      constructor
      · rintro ⟨hx, h⟩; exact ⟨hx, Or.inr ⟨h2, h⟩⟩
      · rintro ⟨hx, (⟨hc, _⟩ | ⟨_, h⟩)⟩
        · exact absurd h1 hc
        · exact ⟨hx, h⟩
    · rw [if_pos (by simpa [bne_iff_ne] using h1)]
      obtain ⟨hg1, hm1⟩ := upsertAll_good_and_mem hs
        (byEmailLookup snap (norm_email row.cub_email)) [] (goodDict_nil snap)
        (fun t ht => (mem_byEmailLookup.mp ht).1)
      obtain ⟨hg2, hm2⟩ := upsertAll_good_and_mem hs
        (byEmailLookup snap (norm_email row.personal_email)) _ hg1
        (fun t ht => (mem_byEmailLookup.mp ht).1)
      refine ⟨hg2, fun x => ?_⟩
      rw [hm2 x, hm1 x]
      simp only [List.map_nil, List.not_mem_nil, false_or, mem_byEmailLookup]
      unfold emailPred
      constructor
      · rintro (⟨hx, h⟩ | ⟨hx, h⟩)
        · exact ⟨hx, Or.inl ⟨h1, h⟩⟩
        · exact ⟨hx, Or.inr ⟨h2, h⟩⟩
      · rintro ⟨hx, (⟨_, h⟩ | ⟨_, h⟩)⟩
        · exact Or.inl ⟨hx, h⟩
        · exact Or.inr ⟨hx, h⟩

/-- The guarded name-tier fold is `upsertAll` over the subset-filtered
snapshot. -/
theorem tier3_fold_eq (snap : List StoredStudent) (m : List (String × StoredStudent))
    (toks : List String) :
    snap.foldl (fun m s =>
      if toks.all (fun t => (tokenize_names [s.stu.first_name, s.stu.last_name]).contains t) then
        (if s.doc_id != "" then dictUpsert m s.doc_id s else m)
      else m) m =
    upsertAll m (snap.filter (fun s =>
      toks.all (fun t => (tokenize_names [s.stu.first_name, s.stu.last_name]).contains t))) := by
  induction snap generalizing m with
  | nil => rfl
  | cons s rest ih =>
    simp only [List.foldl_cons, List.filter_cons]
    by_cases hcond : (toks.all
        (fun t => (tokenize_names [s.stu.first_name, s.stu.last_name]).contains t)) = true
    · rw [if_pos hcond, if_pos hcond]
      rw [ih]
      unfold upsertAll
      simp only [List.foldl_cons]
    · rw [if_neg hcond, if_neg hcond]
      exact ih m

theorem values_empty_iff {m : List (String × StoredStudent)} :
    m.map (fun kv => kv.2) = [] ↔ m = [] := by
  constructor
  · intro h; exact List.map_eq_nil_iff.mp h
  · intro h; subst h; rfl

theorem tgDict_good_and_mem {snap : List StoredStudent} (hs : SnapWF snap) (row : Row)
    (htg : norm_tg row.telegram_name ≠ "") :
    GoodDict snap (upsertAll [] (byTgLookup snap (lowerStr (norm_tg row.telegram_name)))) ∧
      ∀ x, x ∈ (upsertAll []
          (byTgLookup snap (lowerStr (norm_tg row.telegram_name)))).map (fun kv => kv.2) ↔
        x ∈ snap ∧ tgPred row x := by
  obtain ⟨hg, hm⟩ := upsertAll_good_and_mem hs
    (byTgLookup snap (lowerStr (norm_tg row.telegram_name))) [] (goodDict_nil snap)
    (fun t ht => (mem_byTgLookup.mp ht).1)
  refine ⟨hg, fun x => ?_⟩
  rw [hm x]
  simp only [List.map_nil, List.not_mem_nil, false_or, mem_byTgLookup]
  unfold tgPred
  constructor
  · rintro ⟨hx, h1, h2⟩; exact ⟨hx, htg, h1, h2⟩
  · rintro ⟨hx, _, h1, h2⟩; exact ⟨hx, h1, h2⟩

/-- The telegram-tier dict of `_match_students` (empty when the row's
canonicalized handle is blank). -/
def m2Of (snap : List StoredStudent) (row : Row) : List (String × StoredStudent) :=
  if (norm_tg row.telegram_name != "") = true then
    upsertAll [] (byTgLookup snap (lowerStr (norm_tg row.telegram_name)))
  else []

/-- The name-tier dict of `_match_students`, continuing from the (empty)
telegram-tier dict. -/
def m3Of (snap : List StoredStudent) (row : Row) : List (String × StoredStudent) :=
  if tokenize_names [row.first_name, row.last_name] ≠ [] then
    snap.foldl (fun m s =>
      if ((tokenize_names [row.first_name, row.last_name]).all
          (fun t => (tokenize_names [s.stu.first_name, s.stu.last_name]).contains t)) = true then
        (if (s.doc_id != "") = true then dictUpsert m s.doc_id s else m)
      else m) (m2Of snap row)
  else m2Of snap row

/-- Let-free unfolding of `_match_students`. -/
theorem match_students_eq (snap : List StoredStudent) (row : Row) :
    match_students snap row =
      if emailTierDict snap row ≠ [] then (emailTierDict snap row).map (fun kv => kv.2)
      else if m2Of snap row ≠ [] then (m2Of snap row).map (fun kv => kv.2)
      else (m3Of snap row).map (fun kv => kv.2) := rfl

/-- The email tier wins whenever some snapshot student satisfies its
predicate, and then the match result is exactly the email-tier set. -/
theorem match_students_email {snap : List StoredStudent} {row : Row} (hs : SnapWF snap)
    (h : ∃ x ∈ snap, emailPred row x) :
    ∀ y, y ∈ match_students snap row ↔ y ∈ snap ∧ emailPred row y := by
  obtain ⟨hg, hm⟩ := emailTier_good_and_mem hs row
  have hne : emailTierDict snap row ≠ [] := by
    obtain ⟨x, hx, hp⟩ := h
    intro hnil
    have := (hm x).mpr ⟨hx, hp⟩
    rw [hnil] at this
    simp at this
  intro y
  rw [match_students_eq, if_pos hne]
  exact hm y

/-- When the email tier is empty and some student matches the telegram
tier, the match result is exactly the telegram-tier set. -/
theorem match_students_tg {snap : List StoredStudent} {row : Row} (hs : SnapWF snap)
    (hno : ¬ ∃ x ∈ snap, emailPred row x) (h : ∃ x ∈ snap, tgPred row x) :
    ∀ y, y ∈ match_students snap row ↔ y ∈ snap ∧ tgPred row y := by
  obtain ⟨hg1, hm1⟩ := emailTier_good_and_mem hs row
  have h1 : emailTierDict snap row = [] := by
    rw [← values_empty_iff]
    rw [List.eq_nil_iff_forall_not_mem]
    intro y hy
    exact hno ⟨y, (hm1 y).mp hy⟩
  obtain ⟨x, hx, hp⟩ := h
  have htg : norm_tg row.telegram_name ≠ "" := hp.1
  obtain ⟨hg2, hm2⟩ := tgDict_good_and_mem hs row htg
  have h2ne : upsertAll [] (byTgLookup snap (lowerStr (norm_tg row.telegram_name))) ≠ [] := by
    intro hnil
    have := (hm2 x).mpr ⟨hx, hp⟩
    rw [hnil] at this
    simp at this
  have hm2of : m2Of snap row =
      upsertAll [] (byTgLookup snap (lowerStr (norm_tg row.telegram_name))) := by
    unfold m2Of
    rw [if_pos (by simpa [bne_iff_ne] using htg)]
  intro y
  rw [match_students_eq, if_neg (by simpa using h1), hm2of, if_pos h2ne]
  exact hm2 y

/-- When both the email and telegram tiers are empty, the match result is
exactly the name-tier set (empty when the row has no name tokens). -/
theorem match_students_name {snap : List StoredStudent} {row : Row} (hs : SnapWF snap)
    (hno1 : ¬ ∃ x ∈ snap, emailPred row x) (hno2 : ¬ ∃ x ∈ snap, tgPred row x) :
    ∀ y, y ∈ match_students snap row ↔ y ∈ snap ∧ namePred row y := by
  obtain ⟨hg1, hm1⟩ := emailTier_good_and_mem hs row
  have h1 : emailTierDict snap row = [] := by
    rw [← values_empty_iff, List.eq_nil_iff_forall_not_mem]
    intro y hy
    exact hno1 ⟨y, (hm1 y).mp hy⟩
  have h2 : (if (norm_tg row.telegram_name != "") = true then
      upsertAll [] (byTgLookup snap (lowerStr (norm_tg row.telegram_name))) else []) = [] := by
    by_cases htg : norm_tg row.telegram_name = ""
    · rw [if_neg (by simp [bne_iff_ne, htg])]
    · rw [if_pos (by simpa [bne_iff_ne] using htg)]
      obtain ⟨hg2, hm2⟩ := tgDict_good_and_mem hs row htg
      rw [← values_empty_iff, List.eq_nil_iff_forall_not_mem]
      intro y hy
      exact hno2 ⟨y, (hm2 y).mp hy⟩
  have hm2of : m2Of snap row = [] := h2
  intro y
  rw [match_students_eq, if_neg (by simpa using h1), hm2of, if_neg (by simp)]
  unfold m3Of
  rw [hm2of]
  by_cases htoks : tokenize_names [row.first_name, row.last_name] = []
  · rw [if_neg (by simpa using htoks)]
    simp only [List.map_nil, List.not_mem_nil, false_iff]
    rintro ⟨_, hnp⟩
    exact hnp.1 htoks
  · rw [if_pos (by simpa using htoks), tier3_fold_eq]
    obtain ⟨hg3, hm3⟩ := upsertAll_good_and_mem hs
      (snap.filter (fun s => (tokenize_names [row.first_name, row.last_name]).all
        (fun t => (tokenize_names [s.stu.first_name, s.stu.last_name]).contains t))) []
      (goodDict_nil snap) (fun t ht => (List.mem_filter.mp ht).1)
    rw [hm3 y]
    simp only [List.map_nil, List.not_mem_nil, false_or, List.mem_filter]
    unfold namePred
    constructor
    · rintro ⟨hy, hb⟩
      refine ⟨hy, htoks, fun t ht => ?_⟩
      have := List.all_eq_true.mp hb t ht
      exact List.elem_iff.mp this
    · rintro ⟨hy, _, hsub⟩
      refine ⟨hy, List.all_eq_true.mpr fun t ht => ?_⟩
      exact List.elem_iff.mpr (hsub t ht)

/-- Every match produced by `_match_students` comes from the snapshot. -/
theorem match_students_subset {snap : List StoredStudent} {row : Row} (hs : SnapWF snap) :
    ∀ y ∈ match_students snap row, y ∈ snap := by
  intro y hy
  by_cases h1 : ∃ x ∈ snap, emailPred row x
  · exact ((match_students_email hs h1 y).mp hy).1
  · by_cases h2 : ∃ x ∈ snap, tgPred row x
    · exact ((match_students_tg hs h1 h2 y).mp hy).1
    · exact ((match_students_name hs h1 h2 y).mp hy).1

/-! ### Character-level facts about the normalizer -/

theorem char_toNat_ofNat {n : Nat} (h : n.isValidChar) : (Char.ofNat n).toNat = n := by
  unfold Char.ofNat
  rw [dif_pos h]
  rfl

theorem isPyWs_pyLower (c : Char) : isPyWs (pyLower c) = isPyWs c := by
  unfold pyLower
  by_cases h1 : 65 ≤ c.toNat ∧ c.toNat ≤ 90
  · rw [if_pos h1]
    have hv : (c.toNat + 32).isValidChar := Or.inl (by omega)
    rw [Bool.eq_iff_iff]
    simp only [isPyWs, Bool.or_eq_true, beq_iff_eq, char_toNat_ofNat hv]
    omega
  · rw [if_neg h1]
    by_cases h2 : 0xC0 ≤ c.toNat ∧ c.toNat ≤ 0xDE ∧ c.toNat ≠ 0xD7
    · rw [if_pos h2]
      have hv : (c.toNat + 32).isValidChar := Or.inl (by omega)
      rw [Bool.eq_iff_iff]
      simp only [isPyWs, Bool.or_eq_true, beq_iff_eq, char_toNat_ofNat hv]
      omega
    · rw [if_neg h2]

theorem isPyWs_replFancy (c : Char) : isPyWs (replFancy c) = isPyWs c := by
  unfold replFancy
  by_cases h1 : c.toNat = 0x2019 ∨ c.toNat = 0x2018
  · rw [if_pos h1]
    rw [Bool.eq_iff_iff]
    simp only [isPyWs, Bool.or_eq_true, beq_iff_eq,
      char_toNat_ofNat (show (39 : Nat).isValidChar from Or.inl (by omega))]
    omega
  · rw [if_neg h1]
    by_cases h2 : c.toNat = 0x2013 ∨ c.toNat = 0x2014
    · rw [if_pos h2]
      rw [Bool.eq_iff_iff]
      simp only [isPyWs, Bool.or_eq_true, beq_iff_eq,
        char_toNat_ofNat (show (45 : Nat).isValidChar from Or.inl (by omega))]
      omega
    · rw [if_neg h2]

theorem pyLower_idem (c : Char) : pyLower (pyLower c) = pyLower c := by
  unfold pyLower
  by_cases h1 : 65 ≤ c.toNat ∧ c.toNat ≤ 90
  · rw [if_pos h1]
    have hv : (c.toNat + 32).isValidChar := Or.inl (by omega)
    simp only [char_toNat_ofNat hv]
    rw [if_neg (by omega), if_neg (by omega)]
  · rw [if_neg h1]
    by_cases h2 : 0xC0 ≤ c.toNat ∧ c.toNat ≤ 0xDE ∧ c.toNat ≠ 0xD7
    · rw [if_pos h2]
      have hv : (c.toNat + 32).isValidChar := Or.inl (by omega)
      simp only [char_toNat_ofNat hv]
      rw [if_neg (by omega), if_neg (by omega)]
    · rw [if_neg h2, if_neg h1, if_neg h2]

theorem replFancy_idem (c : Char) : replFancy (replFancy c) = replFancy c := by
  unfold replFancy
  by_cases h1 : c.toNat = 0x2019 ∨ c.toNat = 0x2018
  · rw [if_pos h1]
    simp only [char_toNat_ofNat (show (39 : Nat).isValidChar from Or.inl (by omega))]
    rw [if_neg (by omega), if_neg (by omega)]
  · rw [if_neg h1]
    by_cases h2 : c.toNat = 0x2013 ∨ c.toNat = 0x2014
    · rw [if_pos h2]
      simp only [char_toNat_ofNat (show (45 : Nat).isValidChar from Or.inl (by omega))]
      rw [if_neg (by omega), if_neg (by omega)]
    · rw [if_neg h2, if_neg h1, if_neg h2]

theorem pyLower_replFancy (c : Char) : pyLower (replFancy c) = replFancy (pyLower c) := by
  by_cases h1 : c.toNat = 0x2019 ∨ c.toNat = 0x2018
  · have e1 : replFancy c = Char.ofNat 39 := by unfold replFancy; rw [if_pos h1]
    have e2 : pyLower c = c := by unfold pyLower; rw [if_neg (by omega), if_neg (by omega)]
    have e3 : pyLower (Char.ofNat 39) = Char.ofNat 39 := by
      unfold pyLower
      simp only [char_toNat_ofNat (show (39 : Nat).isValidChar from Or.inl (by omega))]
      rw [if_neg (by omega), if_neg (by omega)]
    rw [e1, e2, e3, e1]
  · by_cases h2 : c.toNat = 0x2013 ∨ c.toNat = 0x2014
    · have e1 : replFancy c = Char.ofNat 45 := by unfold replFancy; rw [if_neg h1, if_pos h2]
      have e2 : pyLower c = c := by unfold pyLower; rw [if_neg (by omega), if_neg (by omega)]
      have e3 : pyLower (Char.ofNat 45) = Char.ofNat 45 := by
        unfold pyLower
        simp only [char_toNat_ofNat (show (45 : Nat).isValidChar from Or.inl (by omega))]
        rw [if_neg (by omega), if_neg (by omega)]
      rw [e1, e2, e3, e1]
    · have e1 : replFancy c = c := by unfold replFancy; rw [if_neg h1, if_neg h2]
      rw [e1]
      unfold pyLower
      by_cases h3 : 65 ≤ c.toNat ∧ c.toNat ≤ 90
      · rw [if_pos h3]
        have hv : (c.toNat + 32).isValidChar := Or.inl (by omega)
        unfold replFancy
        rw [if_neg (by simp only [char_toNat_ofNat hv]; omega),
          if_neg (by simp only [char_toNat_ofNat hv]; omega)]
      · rw [if_neg h3]
        by_cases h4 : 0xC0 ≤ c.toNat ∧ c.toNat ≤ 0xDE ∧ c.toNat ≠ 0xD7
        · rw [if_pos h4]
          have hv : (c.toNat + 32).isValidChar := Or.inl (by omega)
          unfold replFancy
          rw [if_neg (by simp only [char_toNat_ofNat hv]; omega),
            if_neg (by simp only [char_toNat_ofNat hv]; omega)]
        · rw [if_neg h4]
          unfold replFancy
          rw [if_neg h1, if_neg h2]

theorem dropWhile_dropWhile (p : Char → Bool) (l : List Char) :
    (l.dropWhile p).dropWhile p = l.dropWhile p := by
  induction l with
  | nil => rfl
  | cons a t ih =>
    by_cases h : p a = true
    · simp [List.dropWhile_cons, h, ih]
    · simp [List.dropWhile_cons, h]

theorem dropWhile_head_false (p : Char → Bool) (l : List Char) {b : Char} {t : List Char}
    (h : l.dropWhile p = b :: t) : p b = false := by
  induction l with
  | nil => simp at h
  | cons a rest ih =>
    rw [List.dropWhile_cons] at h
    by_cases ha : p a = true
    · rw [if_pos ha] at h; exact ih h
    · rw [if_neg ha] at h
      cases h
      simpa using ha

theorem dropWhile_eq_self_of_head (p : Char → Bool) {b : Char} {t : List Char}
    (h : p b = false) : (b :: t).dropWhile p = b :: t := by
  rw [List.dropWhile_cons, if_neg (by simp [h])]

theorem stripWs_decomp (l : List Char) : ∃ r, l.dropWhile isPyWs = stripWs l ++ r := by
  obtain ⟨t, ht⟩ := List.dropWhile_suffix (l := (l.dropWhile isPyWs).reverse) isPyWs
  refine ⟨t.reverse, ?_⟩
  unfold stripWs
  calc l.dropWhile isPyWs = (l.dropWhile isPyWs).reverse.reverse := by rw [List.reverse_reverse]
    _ = (t ++ ((l.dropWhile isPyWs).reverse.dropWhile isPyWs)).reverse := by rw [ht]
    _ = ((l.dropWhile isPyWs).reverse.dropWhile isPyWs).reverse ++ t.reverse := by
        rw [List.reverse_append]

theorem dropWhile_stripWs (l : List Char) : (stripWs l).dropWhile isPyWs = stripWs l := by
  obtain ⟨r, hr⟩ := stripWs_decomp l
  cases hs : stripWs l with
  | nil => rfl
  | cons b t =>
    have hhead : (l.dropWhile isPyWs) = b :: (t ++ r) := by rw [hr, hs]; simp
    have hb : isPyWs b = false := dropWhile_head_false isPyWs l hhead
    exact dropWhile_eq_self_of_head isPyWs hb

theorem stripWs_idem (l : List Char) : stripWs (stripWs l) = stripWs l := by
  conv_lhs => rw [stripWs]
  rw [dropWhile_stripWs]
  show ((stripWs l).reverse.dropWhile isPyWs).reverse = stripWs l
  unfold stripWs
  rw [List.reverse_reverse, dropWhile_dropWhile]

theorem dropWhile_map (f : Char → Char) (p : Char → Bool) (l : List Char)
    (h : ∀ c, p (f c) = p c) : (l.map f).dropWhile p = (l.dropWhile p).map f := by
  induction l with
  | nil => rfl
  | cons a t ih =>
    simp only [List.map_cons, List.dropWhile_cons, h a]
    by_cases ha : p a = true
    · rw [if_pos (by simp [ha]), if_pos (by simp [ha]), ih]
    · rw [if_neg (by simp_all), if_neg (by simp_all)]
      simp

theorem stripWs_map (f : Char → Char) (h : ∀ c, isPyWs (f c) = isPyWs c) (l : List Char) :
    stripWs (l.map f) = (stripWs l).map f := by
  unfold stripWs
  rw [dropWhile_map f isPyWs l h, ← List.map_reverse, dropWhile_map f isPyWs _ h,
    ← List.map_reverse]

/-! ### Normalizer idempotence and tokenizer membership -/

theorem normalize_idem (s : String) : normalize (normalize s) = normalize s := by
  unfold normalize nfkc
  show String.mk ((stripWs (((stripWs (s.data.map pyLower)).map replFancy).map pyLower)).map
    replFancy) = _
  have c1 : ((stripWs (s.data.map pyLower)).map replFancy).map pyLower
      = (stripWs (s.data.map pyLower)).map replFancy := by
    rw [List.map_map]
    have h1 : pyLower ∘ replFancy = replFancy ∘ pyLower := funext pyLower_replFancy
    rw [h1, ← List.map_map]
    rw [← stripWs_map pyLower isPyWs_pyLower, List.map_map]
    have h2 : pyLower ∘ pyLower = pyLower := funext pyLower_idem
    rw [h2]
  rw [c1]
  rw [stripWs_map replFancy isPyWs_replFancy, stripWs_idem, List.map_map]
  have h3 : replFancy ∘ replFancy = replFancy := funext replFancy_idem
  rw [h3]

theorem partTokens_normalize (p : String) : partTokens (normalize p) = partTokens p := by
  unfold partTokens
  rw [normalize_idem]

theorem partTokens_empty : partTokens "" = [] := by decide

theorem mem_insertToken {acc : List String} {t x : String} :
    x ∈ insertToken acc t ↔ x ∈ acc ∨ x = t := by
  unfold insertToken
  split
  · rename_i h
    constructor
    · exact Or.inl
    · rintro (hx | rfl)
      · exact hx
      · exact h
  · simp

theorem mem_foldl_insertToken (L : List String) (acc : List String) (x : String) :
    x ∈ L.foldl insertToken acc ↔ x ∈ acc ∨ x ∈ L := by
  induction L generalizing acc with
  | nil => simp
  | cons t L ih =>
    simp only [List.foldl_cons]
    rw [ih, mem_insertToken]
    simp only [List.mem_cons]
    tauto

theorem mem_tokenize_aux (parts : List String) (acc : List String) (x : String) :
    x ∈ parts.foldl (fun acc part =>
      if part = "" then acc else (partTokens part).foldl insertToken acc) acc ↔
    x ∈ acc ∨ ∃ p ∈ parts, x ∈ partTokens p := by
  induction parts generalizing acc with
  | nil => simp
  | cons p parts ih =>
    simp only [List.foldl_cons]
    by_cases hp : p = ""
    · rw [if_pos hp, ih]
      subst hp
      simp only [List.mem_cons]
      constructor
      · rintro (h | h)
        · exact Or.inl h
        · exact Or.inr (by obtain ⟨q, hq, hx⟩ := h; exact ⟨q, Or.inr hq, hx⟩)
      · rintro (h | ⟨q, (rfl | hq), hx⟩)
        · exact Or.inl h
        · rw [partTokens_empty] at hx; cases hx
        · exact Or.inr ⟨q, hq, hx⟩
    · rw [if_neg hp, ih, mem_foldl_insertToken]
      simp only [List.mem_cons]
      constructor
      · rintro ((h | h) | h)
        · exact Or.inl h
        · exact Or.inr ⟨p, Or.inl rfl, h⟩
        · obtain ⟨q, hq, hx⟩ := h; exact Or.inr ⟨q, Or.inr hq, hx⟩
      · rintro (h | ⟨q, (rfl | hq), hx⟩)
        · exact Or.inl (Or.inl h)
        · exact Or.inl (Or.inr hx)
        · exact Or.inr ⟨q, hq, hx⟩

theorem mem_tokenize (parts : List String) (x : String) :
    x ∈ tokenize_names parts ↔ ∃ p ∈ parts, x ∈ partTokens p := by
  unfold tokenize_names
  rw [mem_tokenize_aux]
  simp

theorem mem_tokenize_pair {p q x : String} :
    x ∈ tokenize_names [p, q] ↔ x ∈ partTokens p ∨ x ∈ partTokens q := by
  rw [mem_tokenize]
  constructor
  · rintro ⟨r, hr, hx⟩
    simp only [List.mem_cons, List.mem_singleton, List.not_mem_nil, or_false] at hr
    rcases hr with rfl | rfl
    · exact Or.inl hx
    · exact Or.inr hx
  · rintro (h | h)
    · exact ⟨p, by simp, h⟩
    · exact ⟨q, by simp, h⟩

theorem tokenize_normalize (q : String) :
    tokenize_names [normalize q] = tokenize_names [q] := by
  unfold tokenize_names
  simp only [List.foldl_cons, List.foldl_nil]
  by_cases hq : q = ""
  · subst hq
    rw [if_pos rfl]
    by_cases hn : normalize "" = ""
    · rw [if_pos hn]
    · rw [if_neg hn]
      have : normalize "" = "" := by decide
      exact absurd this hn
  · rw [if_neg hq]
    by_cases hn : normalize q = ""
    · rw [if_pos hn]
      have : partTokens q = [] := by
        unfold partTokens
        rw [show (normalize q).data = [] by rw [hn]]
        rfl
      rw [this]
      rfl
    · rw [if_neg hn, partTokens_normalize]

/-! ### Keyed-to facts: a persisted merge result keeps the row's keys -/

/-- The record `b` carries every identifying key the row supplies:
nonempty row emails and handle verbatim, and all the row's name tokens. -/
def KeyedTo (b : Student) (r : Row) : Prop :=
  (r.cub_email ≠ "" → b.cub_email = r.cub_email) ∧
  (r.personal_email ≠ "" → b.personal_email = r.personal_email) ∧
  (r.telegram_name ≠ "" → b.telegram_name = r.telegram_name) ∧
  (∀ t ∈ tokenize_names [r.first_name, r.last_name],
    t ∈ tokenize_names [b.first_name, b.last_name])

theorem tokens_sub_of_names {bf bl : String} (r : Row)
    (hf : r.first_name ≠ "" → bf = r.first_name)
    (hl : r.last_name ≠ "" → bl = r.last_name) :
    ∀ t ∈ tokenize_names [r.first_name, r.last_name], t ∈ tokenize_names [bf, bl] := by
  intro t ht
  rw [mem_tokenize_pair] at ht ⊢
  rcases ht with h | h
  · left
    have hne : r.first_name ≠ "" := by
      intro he; rw [he, partTokens_empty] at h; cases h
    rw [hf hne]; exact h
  · right
    have hne : r.last_name ≠ "" := by
      intro he; rw [he, partTokens_empty] at h; cases h
    rw [hl hne]; exact h

theorem keyed_of_merged (D : Int) (b : Student) (r : Row) :
    KeyedTo (build_name_pairs (mergeUpdate D b r)) r := by
  refine ⟨?_, ?_, ?_, ?_⟩
  · intro h; simp [mergeUpdate, pyOrS, h]
  · intro h; simp [mergeUpdate, pyOrS, h]
  · intro h; simp [mergeUpdate, pyOrS, h]
  · apply tokens_sub_of_names
    · intro h; simp [mergeUpdate, pyOrS, h]
    · intro h; simp [mergeUpdate, pyOrS, h]

theorem keyed_of_created (D : Int) (r : Row) :
    KeyedTo (build_name_pairs (createData D r)) r := by
  refine ⟨?_, ?_, ?_, ?_⟩
  · intro _; simp [createData]
  · intro _; simp [createData]
  · intro _; simp [createData]
  · apply tokens_sub_of_names
    · intro _; simp [createData]
    · intro _; simp [createData]

theorem norm_email_blank : norm_email "" = "" := by decide

theorem norm_tg_blank : norm_tg "" = "" := by decide

/-- A snapshot student that carries all the row's keys belongs to the
match result, as long as the row has at least one key. -/
theorem anchor_mem {snap : List StoredStudent} (hs : SnapWF snap) {r : Row}
    {A : StoredStudent} (hA : A ∈ snap) (hK : KeyedTo A.stu r)
    (hkey : norm_email r.cub_email ≠ "" ∨ norm_email r.personal_email ≠ "" ∨
      norm_tg r.telegram_name ≠ "" ∨ tokenize_names [r.first_name, r.last_name] ≠ []) :
    A ∈ match_students snap r := by
  by_cases h1 : norm_email r.cub_email ≠ ""
  · have hrc : r.cub_email ≠ "" := fun he => h1 (by rw [he]; exact norm_email_blank)
    have hp : emailPred r A := Or.inl ⟨h1, Or.inl (by rw [hK.1 hrc])⟩
    exact (match_students_email hs ⟨A, hA, hp⟩ A).mpr ⟨hA, hp⟩
  · push_neg at h1
    by_cases h2 : norm_email r.personal_email ≠ ""
    · have hrp : r.personal_email ≠ "" := fun he => h2 (by rw [he]; exact norm_email_blank)
      have hp : emailPred r A := Or.inr ⟨h2, Or.inr (by rw [(hK.2.1) hrp])⟩
      exact (match_students_email hs ⟨A, hA, hp⟩ A).mpr ⟨hA, hp⟩
    · push_neg at h2
      have hnoe : ¬ ∃ x ∈ snap, emailPred r x := by
        rintro ⟨x, _, (⟨hc, _⟩ | ⟨hc, _⟩)⟩
        · exact hc h1
        · exact hc h2
      by_cases h3 : norm_tg r.telegram_name ≠ ""
      · have hrt : r.telegram_name ≠ "" := fun he => h3 (by rw [he]; exact norm_tg_blank)
        have hp : tgPred r A := by
          refine ⟨h3, ?_, ?_⟩
          · rw [hK.2.2.1 hrt]; exact h3
          · rw [hK.2.2.1 hrt]
        exact (match_students_tg hs hnoe ⟨A, hA, hp⟩ A).mpr ⟨hA, hp⟩
      · push_neg at h3
        have hnot : ¬ ∃ x ∈ snap, tgPred r x := by
          rintro ⟨x, _, ⟨hc, _⟩⟩
          exact hc h3
        have h4 : tokenize_names [r.first_name, r.last_name] ≠ [] := by
          rcases hkey with h | h | h | h
          · exact absurd h1 h
          · exact absurd h2 h
          · exact absurd h3 h
          · exact h
        have hp : namePred r A := ⟨h4, hK.2.2.2⟩
        exact (match_students_name hs hnoe hnot A).mpr ⟨hA, hp⟩

/-- A row with no keys at all matches nothing. -/
theorem match_empty_of_no_keys {snap : List StoredStudent} (hs : SnapWF snap) {r : Row}
    (h1 : norm_email r.cub_email = "") (h2 : norm_email r.personal_email = "")
    (h3 : norm_tg r.telegram_name = "")
    (h4 : tokenize_names [r.first_name, r.last_name] = []) :
    match_students snap r = [] := by
  rw [List.eq_nil_iff_forall_not_mem]
  intro y hy
  by_cases he : ∃ x ∈ snap, emailPred r x
  · obtain ⟨x, _, (⟨hc, _⟩ | ⟨hc, _⟩)⟩ := he
    · exact hc h1
    · exact hc h2
  · by_cases ht : ∃ x ∈ snap, tgPred r x
    · obtain ⟨x, _, ⟨hc, _⟩⟩ := ht
      exact hc h3
    · have := (match_students_name hs he ht y).mp hy
      exact this.2.1 h4

/-! ### Association-list lookup helpers -/

theorem lookup_append_some {β : Type} {a : String} {l₁ l₂ : List (String × β)} {v : β}
    (h : List.lookup a l₁ = some v) : List.lookup a (l₁ ++ l₂) = some v := by
  induction l₁ with
  | nil => simp [List.lookup] at h
  | cons kv t ih =>
    obtain ⟨k0, v0⟩ := kv
    simp only [List.lookup] at h ⊢
    by_cases hk : (a == k0) = true
    · simp only [hk] at h ⊢
      exact h
    · simp only [Bool.not_eq_true] at hk
      simp only [hk] at h ⊢
      exact ih h

theorem lookup_append_none {β : Type} {a : String} {l₁ l₂ : List (String × β)}
    (h : List.lookup a l₁ = none) : List.lookup a (l₁ ++ l₂) = List.lookup a l₂ := by
  induction l₁ with
  | nil => simp
  | cons kv t ih =>
    obtain ⟨k0, v0⟩ := kv
    simp only [List.lookup] at h ⊢
    by_cases hk : (a == k0) = true
    · simp only [hk] at h
      exact Option.noConfusion h
    · simp only [Bool.not_eq_true] at hk
      simp only [hk] at h ⊢
      exact ih h

theorem lookup_none_iff {β : Type} {a : String} {l : List (String × β)} :
    List.lookup a l = none ↔ a ∉ l.map (fun kv => kv.1) := by
  induction l with
  | nil => simp
  | cons kv t ih =>
    obtain ⟨k0, v0⟩ := kv
    rw [List.lookup]
    by_cases hk : (a == k0) = true
    · simp only [hk]
      simp only [List.map_cons, List.mem_cons]
      constructor
      · intro h; cases h
      · intro h; exact absurd (Or.inl (beq_iff_eq.mp hk)) h
    · simp only [Bool.not_eq_true] at hk
      simp only [hk, ih, List.map_cons, List.mem_cons]
      constructor
      · intro h hc
        rcases hc with hc | hc
        · rw [hc] at hk; simp at hk
        · exact h hc
      · intro h hc
        exact h (Or.inr hc)

theorem lookup_mem {β : Type} {a : String} {l : List (String × β)} {v : β}
    (h : List.lookup a l = some v) : (a, v) ∈ l := by
  induction l with
  | nil => simp [List.lookup] at h
  | cons kv t ih =>
    obtain ⟨k0, v0⟩ := kv
    rw [List.lookup] at h
    by_cases hk : (a == k0) = true
    · simp only [hk] at h
      cases h
      have ha : a = k0 := beq_iff_eq.mp hk
      rw [ha]
      exact List.mem_cons_self _ _
    · simp only [Bool.not_eq_true] at hk
      simp only [hk] at h
      exact List.mem_cons_of_mem _ (ih h)

theorem lookup_of_mem_nodup {β : Type} {a : String} {l : List (String × β)} {v : β}
    (hN : (l.map (fun kv => kv.1)).Nodup) (h : (a, v) ∈ l) : List.lookup a l = some v := by
  induction l with
  | nil => cases h
  | cons kv t ih =>
    obtain ⟨k0, v0⟩ := kv
    simp only [List.map_cons, List.nodup_cons] at hN
    rcases List.mem_cons.mp h with h1 | h1
    · cases h1
      rw [List.lookup]
      simp
    · rw [List.lookup]
      by_cases hk : (a == k0) = true
      · exfalso
        apply hN.1
        have ha : a = k0 := beq_iff_eq.mp hk
        rw [← ha]
        exact List.mem_map.mpr ⟨(a, v), h1, rfl⟩
      · simp only [Bool.not_eq_true] at hk
        simp only [hk]
        exact ih hN.2 h1

/-! ### Store primitives -/

theorem length_foldr_max (l : List Nat) : ∀ x ∈ l, x ≤ l.foldr max 0 := by
  induction l with
  | nil => intro x hx; cases hx
  | cons a t ih =>
    intro x hx
    rcases List.mem_cons.mp hx with rfl | hx
    · exact le_max_left _ _
    · exact le_trans (ih x hx) (le_max_right _ _)

theorem freshId_length (st : Store) :
    (freshId st).length = (st.map (fun kv => kv.1.length)).foldr max 0 + 1 := by
  show (List.replicate ((st.map (fun kv => kv.1.length)).foldr max 0 + 1) 'n').length = _
  rw [List.length_replicate]

theorem freshId_not_mem (st : Store) : freshId st ∉ storeIds st := by
  intro h
  obtain ⟨kv, hkv, he⟩ := List.mem_map.mp h
  have h1 : kv.1.length ≤ (st.map (fun kv => kv.1.length)).foldr max 0 :=
    length_foldr_max _ _ (List.mem_map.mpr ⟨kv, hkv, rfl⟩)
  have h2 : (freshId st).length = (st.map (fun kv => kv.1.length)).foldr max 0 + 1 :=
    freshId_length st
  rw [he] at h1
  omega

theorem freshId_ne_blank (st : Store) : freshId st ≠ "" := by
  intro h
  have h1 := freshId_not_mem st
  have h2 := freshId_length st
  rw [h] at h2
  have h3 : ("" : String).length = 0 := rfl
  omega

theorem lookup_map_replace (d : String) (v : Student) (st : Store) :
    List.lookup d (st.map (fun kv => if kv.1 == d then (d, v) else kv)) =
      (List.lookup d st).map (fun _ => v) := by
  induction st with
  | nil => rfl
  | cons kv0 t ih =>
    obtain ⟨k0, v0⟩ := kv0
    by_cases hp : k0 = d
    · subst hp
      have e1 : List.map (fun kv => if kv.1 == k0 then (k0, v) else kv) ((k0, v0) :: t)
          = (k0, v) :: List.map (fun kv => if kv.1 == k0 then (k0, v) else kv) t := by
        rw [List.map_cons]
        congr 1
        exact if_pos (by simp)
      rw [e1]
      simp [List.lookup]
    · have hq : ¬ d = k0 := fun h => hp h.symm
      have e1 : List.map (fun kv => if kv.1 == d then (d, v) else kv) ((k0, v0) :: t)
          = (k0, v0) :: List.map (fun kv => if kv.1 == d then (d, v) else kv) t := by
        rw [List.map_cons]
        congr 1
        exact if_neg (by simp [hp])
      rw [e1]
      have hb : (d == k0) = false := beq_eq_false_iff_ne.mpr hq
      simp only [List.lookup, hb]
      exact ih

theorem lookup_map_replace_other {d' d : String} (v : Student) (st : Store) (h : d' ≠ d) :
    List.lookup d' (st.map (fun kv => if kv.1 == d then (d, v) else kv)) =
      List.lookup d' st := by
  induction st with
  | nil => rfl
  | cons kv0 t ih =>
    obtain ⟨k0, v0⟩ := kv0
    by_cases hp : k0 = d
    · subst hp
      have e1 : List.map (fun kv => if kv.1 == k0 then (k0, v) else kv) ((k0, v0) :: t)
          = (k0, v) :: List.map (fun kv => if kv.1 == k0 then (k0, v) else kv) t := by
        rw [List.map_cons]
        congr 1
        exact if_pos (by simp)
      rw [e1]
      have hb : (d' == k0) = false := beq_eq_false_iff_ne.mpr h
      simp only [List.lookup, hb]
      exact ih
    · have e1 : List.map (fun kv => if kv.1 == d then (d, v) else kv) ((k0, v0) :: t)
          = (k0, v0) :: List.map (fun kv => if kv.1 == d then (d, v) else kv) t := by
        rw [List.map_cons]
        congr 1
        exact if_neg (by simp [hp])
      rw [e1]
      by_cases hq : d' = k0
      · subst hq
        simp only [List.lookup, beq_self_eq_true]
      · have hb : (d' == k0) = false := beq_eq_false_iff_ne.mpr hq
        simp only [List.lookup, hb]
        exact ih

theorem mem_keys_of_any {st : Store} {d : String}
    (hany : (st.any fun kv => kv.1 == d) = true) : d ∈ st.map (fun kv => kv.1) := by
  obtain ⟨kv, hkv, hk⟩ := List.any_eq_true.mp hany
  exact List.mem_map.mpr ⟨kv, hkv, beq_iff_eq.mp hk⟩

theorem any_of_mem_keys {st : Store} {d : String} (h : d ∈ st.map (fun kv => kv.1)) :
    (st.any fun kv => kv.1 == d) = true := by
  obtain ⟨kv, hkv, hk⟩ := List.mem_map.mp h
  exact List.any_eq_true.mpr ⟨kv, hkv, beq_iff_eq.mpr hk⟩

theorem storeSet_lookup_self (st : Store) (d : String) (v : Student) :
    List.lookup d (storeSet st d v) = some v := by
  unfold storeSet
  split
  · rename_i hany
    rw [lookup_map_replace]
    have h1 : List.lookup d st ≠ none := by
      rw [Ne, lookup_none_iff]
      intro hc
      exact hc (mem_keys_of_any hany)
    obtain ⟨w, hw⟩ := Option.ne_none_iff_exists'.mp h1
    rw [hw]
    rfl
  · rename_i hany
    have hnone : List.lookup d st = none := by
      rw [lookup_none_iff]
      intro hc
      exact hany (any_of_mem_keys hc)
    rw [lookup_append_none hnone]
    simp [List.lookup]

theorem storeSet_lookup_other {d' d : String} (st : Store) (v : Student) (h : d' ≠ d) :
    List.lookup d' (storeSet st d v) = List.lookup d' st := by
  unfold storeSet
  split
  · exact lookup_map_replace_other v st h
  · by_cases h2 : List.lookup d' st = none
    · rw [lookup_append_none h2, h2]
      have hd : (d' == d) = false := by rw [beq_eq_false_iff_ne]; exact h
      simp [List.lookup, hd]
    · obtain ⟨w, hw⟩ := Option.ne_none_iff_exists'.mp h2
      rw [lookup_append_some hw, hw]

theorem storeIds_storeSet (st : Store) (d : String) (v : Student) :
    (d ∈ storeIds st ∧ storeIds (storeSet st d v) = storeIds st) ∨
      (d ∉ storeIds st ∧ storeIds (storeSet st d v) = storeIds st ++ [d]) := by
  unfold storeSet
  split
  · rename_i hany
    left
    refine ⟨mem_keys_of_any hany, ?_⟩
    unfold storeIds
    rw [List.map_map]
    apply List.map_congr_left
    intro kv _
    by_cases h0 : kv.1 = d
    · simp [h0]
    · simp [h0]
  · rename_i hany
    right
    refine ⟨fun hc => hany (any_of_mem_keys hc), ?_⟩
    unfold storeIds
    simp

/-! ### Row classifiers: every per-row decision is a function of the
snapshot alone, because `_match_students` and the change comparison read
only the snapshot loaded at the start of the run. -/

/-- The change test of `_update_student_if_changed`, as a proposition. -/
def changedF (D : Int) (s : StoredStudent) (r : Row) : Prop :=
  build_name_pairs (mergeUpdate D s.stu r) ≠ s.stu

instance (D : Int) (s : StoredStudent) (r : Row) : Decidable (changedF D s r) := by
  unfold changedF; infer_instance

/-- The contribution of one row to the `updated` counter. -/
def updTick (D : Int) (snap : List StoredStudent) (ir : Nat × Row) : Nat :=
  if is_empty_row ir.2 then 0 else
  match match_students snap ir.2 with
  | [s] => if s.doc_id ≠ "" ∧ changedF D s ir.2 then 1 else 0
  | _ => 0

/-- The ambiguous entries contributed by one row. -/
def ambOf (snap : List StoredStudent) (ir : Nat × Row) : List (Nat × String) :=
  if is_empty_row ir.2 then [] else
  match match_students snap ir.2 with
  | [] => []
  | [s] => if s.doc_id = "" then [(ir.1, "matched student without doc_id")] else []
  | s1 :: s2 :: rest => [(ir.1, multiReason (s1 :: s2 :: rest))]

/-- The id a row is recorded against in `matched_row_groups`, when any. -/
def matchedId (snap : List StoredStudent) (ir : Nat × Row) : Option String :=
  if is_empty_row ir.2 then none else
  match match_students snap ir.2 with
  | [s] => if s.doc_id = "" then none else some s.doc_id
  | _ => none

theorem update_bool (D : Int) (store : Store) (s : StoredStudent) (r : Row) :
    (update_student_if_changed D store s r).1 = true ↔ changedF D s r := by
  unfold update_student_if_changed changedF
  rw [bne_iff_ne]

theorem update_store_of_changed (D : Int) (store : Store) (s : StoredStudent) (r : Row)
    (hc : changedF D s r) (hid : s.doc_id ≠ "") :
    (update_student_if_changed D store s r).2 =
      storeSet store s.doc_id (build_name_pairs (mergeUpdate D s.stu r)) := by
  show (if ((build_name_pairs (mergeUpdate D s.stu r) != s.stu) && (s.doc_id != "")) = true then
      storeSet store s.doc_id (build_name_pairs (mergeUpdate D s.stu r)) else store) = _
  rw [if_pos]
  rw [Bool.and_eq_true, bne_iff_ne, bne_iff_ne]
  exact ⟨hc, hid⟩

theorem update_store_of_unchanged (D : Int) (store : Store) (s : StoredStudent) (r : Row)
    (hc : ¬ changedF D s r) :
    (update_student_if_changed D store s r).2 = store := by
  show (if ((build_name_pairs (mergeUpdate D s.stu r) != s.stu) && (s.doc_id != "")) = true then
      storeSet store s.doc_id (build_name_pairs (mergeUpdate D s.stu r)) else store) = _
  rw [if_neg]
  rw [Bool.and_eq_true, bne_iff_ne]
  rintro ⟨h1, _⟩
  exact hc h1

theorem processRow_updated (D : Int) (snap : List StoredStudent) (st : ImpState)
    (ir : Nat × Row) :
    (processRow D snap st ir).updated = st.updated + updTick D snap ir := by
  unfold processRow updTick
  by_cases he : is_empty_row ir.2
  · rw [if_pos he, if_pos he]
    simp
  · rw [if_neg he, if_neg he]
    cases h : match_students snap ir.2 with
    | nil => simp [processRowWith]
    | cons s rest =>
      cases rest with
      | nil =>
        simp only [processRowWith]
        by_cases hid : s.doc_id = ""
        · rw [if_pos hid, if_neg (show ¬(s.doc_id ≠ "" ∧ changedF D s ir.2) from
            fun hh => hh.1 hid)]
          simp
        · rw [if_neg hid]
          by_cases hc : changedF D s ir.2
          · have h1 : (update_student_if_changed D st.store s ir.2).1 = true :=
              (update_bool D st.store s ir.2).mpr hc
            rw [if_pos (show s.doc_id ≠ "" ∧ changedF D s ir.2 from ⟨hid, hc⟩)]
            simp [h1]
          · have h1 : (update_student_if_changed D st.store s ir.2).1 = false := by
              rw [← Bool.not_eq_true]
              intro hh
              exact hc ((update_bool D st.store s ir.2).mp hh)
            rw [if_neg (show ¬(s.doc_id ≠ "" ∧ changedF D s ir.2) from
              fun hh => hc hh.2)]
            simp [h1]
      | cons s2 rest2 => simp [processRowWith]

theorem processRow_ambiguous (D : Int) (snap : List StoredStudent) (st : ImpState)
    (ir : Nat × Row) :
    (processRow D snap st ir).ambiguous_rows = st.ambiguous_rows ++ ambOf snap ir := by
  unfold processRow ambOf
  by_cases he : is_empty_row ir.2
  · rw [if_pos he, if_pos he]
    simp
  · rw [if_neg he, if_neg he]
    cases h : match_students snap ir.2 with
    | nil => simp [processRowWith]
    | cons s rest =>
      cases rest with
      | nil =>
        simp only [processRowWith]
        by_cases hid : s.doc_id = ""
        · rw [if_pos hid, if_pos hid]
        · rw [if_neg hid, if_neg hid]
          simp
      | cons s2 rest2 => simp [processRowWith]

/-- `matched_row_groups.setdefault(id, []).append(idx)` viewed through the
per-id accumulated length. -/
def glen (g : List (String × List Nat)) (id : String) : Nat :=
  ((List.lookup id g).getD []).length

theorem glen_groupAdd_self (g : List (String × List Nat)) (id : String) (idx : Nat) :
    glen (groupAdd g id idx) id = glen g id + 1 := by
  unfold groupAdd glen
  split
  · rename_i hany
    have hrepl : List.lookup id (g.map (fun kv => if kv.1 == id then (kv.1, kv.2 ++ [idx])
        else kv)) = (List.lookup id g).map (fun l => l ++ [idx]) := by
      clear hany
      induction g with
      | nil => rfl
      | cons kv0 t ih =>
        obtain ⟨k0, v0⟩ := kv0
        by_cases hp : k0 = id
        · subst hp
          have e1 : List.map (fun kv => if kv.1 == k0 then (kv.1, kv.2 ++ [idx]) else kv)
              ((k0, v0) :: t) = (k0, v0 ++ [idx]) ::
                List.map (fun kv => if kv.1 == k0 then (kv.1, kv.2 ++ [idx]) else kv) t := by
            rw [List.map_cons]
            congr 1
            exact if_pos (by simp)
          rw [e1]
          simp only [List.lookup, beq_self_eq_true]
          rfl
        · have e1 : List.map (fun kv => if kv.1 == id then (kv.1, kv.2 ++ [idx]) else kv)
              ((k0, v0) :: t) = (k0, v0) ::
                List.map (fun kv => if kv.1 == id then (kv.1, kv.2 ++ [idx]) else kv) t := by
            rw [List.map_cons]
            congr 1
            exact if_neg (by simp [hp])
          rw [e1]
          have hb : (id == k0) = false := beq_eq_false_iff_ne.mpr (fun h => hp h.symm)
          simp only [List.lookup, hb]
          exact ih
    rw [hrepl]
    have h1 : List.lookup id g ≠ none := by
      rw [Ne, lookup_none_iff]
      intro hc
      obtain ⟨kv, hkv, hk⟩ := List.any_eq_true.mp hany
      exact hc (List.mem_map.mpr ⟨kv, hkv, beq_iff_eq.mp hk⟩)
    obtain ⟨w, hw⟩ := Option.ne_none_iff_exists'.mp h1
    rw [hw]
    simp
  · rename_i hany
    have hnone : List.lookup id g = none := by
      rw [lookup_none_iff]
      intro hc
      apply hany
      rw [List.any_eq_true]
      obtain ⟨kv, hkv, he⟩ := List.mem_map.mp hc
      exact ⟨kv, hkv, beq_iff_eq.mpr he⟩
    rw [lookup_append_none hnone, hnone]
    simp [List.lookup]

theorem glen_groupAdd_other (g : List (String × List Nat)) {id id' : String} (idx : Nat)
    (h : id' ≠ id) : glen (groupAdd g id idx) id' = glen g id' := by
  unfold groupAdd glen
  split
  · rename_i hany
    have hrepl : List.lookup id' (g.map (fun kv => if kv.1 == id then (kv.1, kv.2 ++ [idx])
        else kv)) = List.lookup id' g := by
      clear hany
      induction g with
      | nil => rfl
      | cons kv0 t ih =>
        obtain ⟨k0, v0⟩ := kv0
        by_cases hp : k0 = id
        · subst hp
          have e1 : List.map (fun kv => if kv.1 == k0 then (kv.1, kv.2 ++ [idx]) else kv)
              ((k0, v0) :: t) = (k0, v0 ++ [idx]) ::
                List.map (fun kv => if kv.1 == k0 then (kv.1, kv.2 ++ [idx]) else kv) t := by
            rw [List.map_cons]
            congr 1
            exact if_pos (by simp)
          rw [e1]
          have hb : (id' == k0) = false := beq_eq_false_iff_ne.mpr h
          simp only [List.lookup, hb]
          exact ih
        · have e1 : List.map (fun kv => if kv.1 == id then (kv.1, kv.2 ++ [idx]) else kv)
              ((k0, v0) :: t) = (k0, v0) ::
                List.map (fun kv => if kv.1 == id then (kv.1, kv.2 ++ [idx]) else kv) t := by
            rw [List.map_cons]
            congr 1
            exact if_neg (by simp [hp])
          rw [e1]
          by_cases hq : id' = k0
          · subst hq
            simp only [List.lookup, beq_self_eq_true]
          · have hb : (id' == k0) = false := beq_eq_false_iff_ne.mpr hq
            simp only [List.lookup, hb]
            exact ih
    rw [hrepl]
  · by_cases h2 : List.lookup id' g = none
    · rw [lookup_append_none h2, h2]
      have hb : (id' == id) = false := beq_eq_false_iff_ne.mpr h
      simp [List.lookup, hb]
    · obtain ⟨w, hw⟩ := Option.ne_none_iff_exists'.mp h2
      rw [lookup_append_some hw, hw]

theorem processRow_glen (D : Int) (snap : List StoredStudent) (st : ImpState) (ir : Nat × Row)
    (d : String) :
    glen (processRow D snap st ir).groups d =
      glen st.groups d + (if matchedId snap ir = some d then 1 else 0) := by
  by_cases he : is_empty_row ir.2
  · have hm : matchedId snap ir = none := by unfold matchedId; rw [if_pos he]
    rw [hm]
    unfold processRow
    rw [if_pos he]
    simp
  · unfold processRow
    rw [if_neg he]
    cases h : match_students snap ir.2 with
    | nil =>
      have hm : matchedId snap ir = none := by
        unfold matchedId
        rw [if_neg he, h]
      rw [hm]
      simp [processRowWith]
    | cons s rest =>
      cases rest with
      | nil =>
        simp only [processRowWith]
        by_cases hid : s.doc_id = ""
        · have hm : matchedId snap ir = none := by
            unfold matchedId
            rw [if_neg he, h]
            exact if_pos hid
          rw [hm, if_pos hid]
          simp
        · have hm : matchedId snap ir = some s.doc_id := by
            unfold matchedId
            rw [if_neg he, h]
            exact if_neg hid
          rw [hm, if_neg hid]
          by_cases hd : s.doc_id = d
          · subst hd
            rw [if_pos rfl]
            exact glen_groupAdd_self st.groups s.doc_id ir.1
          · rw [if_neg (fun hc => hd (Option.some.inj hc))]
            have hg := @glen_groupAdd_other st.groups s.doc_id d ir.1 (fun hc => hd hc.symm)
            simpa using hg
      | cons s2 rest2 =>
        have hm : matchedId snap ir = none := by
          unfold matchedId
          rw [if_neg he, h]
        rw [hm]
        simp [processRowWith]

/-! ### Import loop decomposition -/

theorem importLoop_cons (D : Int) (snap : List StoredStudent) (ir : Nat × Row)
    (l : List (Nat × Row)) (st : ImpState) :
    importLoop D snap (ir :: l) st = importLoop D snap l (processRow D snap st ir) := rfl

theorem importLoop_append (D : Int) (snap : List StoredStudent) (l₁ l₂ : List (Nat × Row))
    (st : ImpState) :
    importLoop D snap (l₁ ++ l₂) st = importLoop D snap l₂ (importLoop D snap l₁ st) := by
  unfold importLoop
  rw [List.foldl_append]

theorem importLoop_updated (D : Int) (snap : List StoredStudent) (l : List (Nat × Row))
    (st : ImpState) :
    (importLoop D snap l st).updated = st.updated + (l.map (updTick D snap)).sum := by
  induction l generalizing st with
  | nil => simp [importLoop]
  | cons ir t ih =>
    rw [importLoop_cons, ih, processRow_updated]
    simp only [List.map_cons, List.sum_cons]
    omega

theorem importLoop_ambiguous (D : Int) (snap : List StoredStudent) (l : List (Nat × Row))
    (st : ImpState) :
    (importLoop D snap l st).ambiguous_rows = st.ambiguous_rows ++ l.flatMap (ambOf snap) := by
  induction l generalizing st with
  | nil => simp [importLoop]
  | cons ir t ih =>
    rw [importLoop_cons, ih, processRow_ambiguous]
    simp [List.append_assoc]

theorem importLoop_glen (D : Int) (snap : List StoredStudent) (l : List (Nat × Row))
    (st : ImpState) (d : String) :
    glen (importLoop D snap l st).groups d =
      glen st.groups d + l.countP (fun ir => matchedId snap ir == some d) := by
  induction l generalizing st with
  | nil => simp [importLoop]
  | cons ir t ih =>
    rw [importLoop_cons, ih, processRow_glen, List.countP_cons]
    by_cases hm : matchedId snap ir = some d
    · rw [if_pos hm]
      have : (matchedId snap ir == some d) = true := beq_iff_eq.mpr hm
      rw [this]
      simp
      omega
    · rw [if_neg hm]
      have : (matchedId snap ir == some d) = false := beq_eq_false_iff_ne.mpr hm
      rw [this]
      simp

/-! ### Store stability across the loop -/

/-- The row writes document `d` during the run: it has a single valid
match with that id and the merge changed something. -/
def writesId (D : Int) (snap : List StoredStudent) (ir : Nat × Row) (d : String) : Prop :=
  ¬ is_empty_row ir.2 = true ∧
    ∃ s, match_students snap ir.2 = [s] ∧ s.doc_id = d ∧ d ≠ "" ∧ changedF D s ir.2

theorem processRow_ids_mono (D : Int) (snap : List StoredStudent) (st : ImpState)
    (ir : Nat × Row) :
    ∀ x ∈ storeIds st.store, x ∈ storeIds (processRow D snap st ir).store := by
  intro x hx
  unfold processRow
  by_cases he : is_empty_row ir.2
  · rw [if_pos he]; exact hx
  · rw [if_neg he]
    cases h : match_students snap ir.2 with
    | nil =>
      simp only [processRowWith, storeAdd]
      unfold storeIds
      rw [List.map_append, List.mem_append]
      exact Or.inl hx
    | cons s rest =>
      cases rest with
      | nil =>
        simp only [processRowWith]
        by_cases hid : s.doc_id = ""
        · rw [if_pos hid]; exact hx
        · rw [if_neg hid]
          by_cases hc : changedF D s ir.2
          · show x ∈ storeIds (update_student_if_changed D st.store s ir.2).2
            rw [update_store_of_changed D st.store s ir.2 hc hid]
            rcases storeIds_storeSet st.store s.doc_id
                (build_name_pairs (mergeUpdate D s.stu ir.2)) with hse | hse
            · rw [hse.2]; exact hx
            · rw [hse.2, List.mem_append]; exact Or.inl hx
          · show x ∈ storeIds (update_student_if_changed D st.store s ir.2).2
            rw [update_store_of_unchanged D st.store s ir.2 hc]
            exact hx
      | cons s2 rest2 =>
        simp only [processRowWith]
        exact hx

theorem processRow_lookup_stable (D : Int) (snap : List StoredStudent) (st : ImpState)
    (ir : Nat × Row) (d : String) (hd : d ∈ storeIds st.store)
    (hw : ¬ writesId D snap ir d) :
    List.lookup d (processRow D snap st ir).store = List.lookup d st.store := by
  unfold processRow
  by_cases he : is_empty_row ir.2
  · rw [if_pos he]
  · rw [if_neg he]
    cases h : match_students snap ir.2 with
    | nil =>
      simp only [processRowWith, storeAdd]
      have hne : List.lookup d st.store ≠ none := by
        rw [Ne, lookup_none_iff]
        intro hc
        exact hc hd
      obtain ⟨w, hwv⟩ := Option.ne_none_iff_exists'.mp hne
      rw [lookup_append_some hwv, hwv]
    | cons s rest =>
      cases rest with
      | nil =>
        simp only [processRowWith]
        by_cases hid : s.doc_id = ""
        · rw [if_pos hid]
        · rw [if_neg hid]
          by_cases hc : changedF D s ir.2
          · show List.lookup d (update_student_if_changed D st.store s ir.2).2 = _
            rw [update_store_of_changed D st.store s ir.2 hc hid]
            have hds : d ≠ s.doc_id := by
              intro hcontra
              exact hw ⟨he, s, h, hcontra.symm, by rw [hcontra]; exact hid, hc⟩
            exact storeSet_lookup_other st.store _ hds
          · show List.lookup d (update_student_if_changed D st.store s ir.2).2 = _
            rw [update_store_of_unchanged D st.store s ir.2 hc]
      | cons s2 rest2 =>
        simp only [processRowWith]

theorem importLoop_ids_mono (D : Int) (snap : List StoredStudent) (l : List (Nat × Row))
    (st : ImpState) :
    ∀ x ∈ storeIds st.store, x ∈ storeIds (importLoop D snap l st).store := by
  induction l generalizing st with
  | nil => intro x hx; exact hx
  | cons ir t ih =>
    intro x hx
    rw [importLoop_cons]
    exact ih (processRow D snap st ir) x (processRow_ids_mono D snap st ir x hx)

theorem importLoop_lookup_stable (D : Int) (snap : List StoredStudent) (l : List (Nat × Row))
    (st : ImpState) (d : String) (hd : d ∈ storeIds st.store)
    (hw : ∀ ir ∈ l, ¬ writesId D snap ir d) :
    List.lookup d (importLoop D snap l st).store = List.lookup d st.store := by
  induction l generalizing st with
  | nil => rfl
  | cons ir t ih =>
    rw [importLoop_cons]
    rw [ih (processRow D snap st ir) (processRow_ids_mono D snap st ir d hd)
      (fun ir2 h2 => hw ir2 (List.mem_cons_of_mem ir h2))]
    exact processRow_lookup_stable D snap st ir d hd (hw ir (List.mem_cons_self ir t))

/-- Store well-formedness: distinct, nonempty document ids. -/
def StoreWF (st : Store) : Prop := (storeIds st).Nodup ∧ "" ∉ storeIds st

theorem mem_storeIds_storeSet_self (st : Store) (d : String) (v : Student) :
    d ∈ storeIds (storeSet st d v) := by
  rcases storeIds_storeSet st d v with he | he
  · rw [he.2]; exact he.1
  · rw [he.2, List.mem_append]; right; simp

theorem storeSet_wf {st : Store} {d : String} (v : Student) (h : StoreWF st) (hd : d ≠ "") :
    StoreWF (storeSet st d v) := by
  rcases storeIds_storeSet st d v with he | he
  · rw [StoreWF, he.2]; exact h
  · constructor
    · rw [he.2]
      rw [List.nodup_append]
      exact ⟨h.1, List.nodup_singleton d, fun a ha hb => by
        simp only [List.mem_singleton] at hb
        subst hb
        exact he.1 ha⟩
    · rw [he.2, List.mem_append]
      rintro (hc | hc)
      · exact h.2 hc
      · simp only [List.mem_singleton] at hc
        exact hd hc.symm

theorem processRow_wf (D : Int) (snap : List StoredStudent) (st : ImpState) (ir : Nat × Row)
    (h : StoreWF st.store) : StoreWF (processRow D snap st ir).store := by
  unfold processRow
  by_cases he : is_empty_row ir.2
  · rw [if_pos he]; exact h
  · rw [if_neg he]
    cases hm : match_students snap ir.2 with
    | nil =>
      simp only [processRowWith, storeAdd]
      constructor
      · unfold storeIds
        rw [List.map_append]
        rw [List.nodup_append]
        refine ⟨h.1, by simp, ?_⟩
        intro a ha hb
        simp only [List.map_cons, List.map_nil, List.mem_singleton] at hb
        subst hb
        exact freshId_not_mem st.store ha
      · unfold storeIds
        rw [List.map_append, List.mem_append]
        rintro (hc | hc)
        · exact h.2 hc
        · simp only [List.map_cons, List.map_nil, List.mem_singleton] at hc
          exact freshId_ne_blank st.store hc.symm
    | cons s rest =>
      cases rest with
      | nil =>
        simp only [processRowWith]
        by_cases hid : s.doc_id = ""
        · rw [if_pos hid]; exact h
        · rw [if_neg hid]
          by_cases hc : changedF D s ir.2
          · show StoreWF (update_student_if_changed D st.store s ir.2).2
            rw [update_store_of_changed D st.store s ir.2 hc hid]
            exact storeSet_wf _ h hid
          · show StoreWF (update_student_if_changed D st.store s ir.2).2
            rw [update_store_of_unchanged D st.store s ir.2 hc]
            exact h
      | cons s2 rest2 =>
        simp only [processRowWith]
        exact h

theorem importLoop_wf (D : Int) (snap : List StoredStudent) (l : List (Nat × Row))
    (st : ImpState) (h : StoreWF st.store) : StoreWF (importLoop D snap l st).store := by
  induction l generalizing st with
  | nil => exact h
  | cons ir t ih =>
    rw [importLoop_cons]
    exact ih (processRow D snap st ir) (processRow_wf D snap st ir h)

theorem processRow_store_create (D : Int) (snap : List StoredStudent) (st : ImpState)
    (ir : Nat × Row) (hne : ¬ is_empty_row ir.2 = true)
    (h : match_students snap ir.2 = []) :
    (processRow D snap st ir).store =
      st.store ++ [(freshId st.store, build_name_pairs (createData D ir.2))] := by
  unfold processRow
  rw [if_neg hne, h]
  simp only [processRowWith, storeAdd]

theorem processRow_store_changed (D : Int) (snap : List StoredStudent) (st : ImpState)
    (ir : Nat × Row) {s : StoredStudent} (hne : ¬ is_empty_row ir.2 = true)
    (h : match_students snap ir.2 = [s]) (hid : s.doc_id ≠ "") (hc : changedF D s ir.2) :
    (processRow D snap st ir).store =
      storeSet st.store s.doc_id (build_name_pairs (mergeUpdate D s.stu ir.2)) := by
  unfold processRow
  rw [if_neg hne, h]
  simp only [processRowWith]
  rw [if_neg hid]
  show (update_student_if_changed D st.store s ir.2).2 = _
  exact update_store_of_changed D st.store s ir.2 hc hid

theorem processRow_store_unchanged (D : Int) (snap : List StoredStudent) (st : ImpState)
    (ir : Nat × Row) {s : StoredStudent} (hne : ¬ is_empty_row ir.2 = true)
    (h : match_students snap ir.2 = [s]) (hid : s.doc_id ≠ "") (hc : ¬ changedF D s ir.2) :
    (processRow D snap st ir).store = st.store := by
  unfold processRow
  rw [if_neg hne, h]
  simp only [processRowWith]
  rw [if_neg hid]
  show (update_student_if_changed D st.store s ir.2).2 = _
  exact update_store_of_unchanged D st.store s ir.2 hc

theorem load_ids (st : Store) :
    (load_students st).map (fun s => s.doc_id) = storeIds st := by
  unfold load_students storeIds
  rw [List.map_map]
  rfl

theorem load_snapWF {st : Store} (h : StoreWF st) : SnapWF (load_students st) := by
  constructor
  · rw [load_ids]; exact h.1
  · intro s hs
    obtain ⟨kv, hkv, hkveq⟩ := List.mem_map.mp hs
    intro hc
    apply h.2
    rw [← hkveq] at hc
    unfold storeIds
    exact List.mem_map.mpr ⟨kv, hkv, hc⟩

theorem writesId_matchedId {D : Int} {snap : List StoredStudent} {ir : Nat × Row} {d : String}
    (h : writesId D snap ir d) : matchedId snap ir = some d := by
  obtain ⟨hne, s, hm, hsd, hd, _⟩ := h
  unfold matchedId
  rw [if_neg hne, hm]
  have : ¬ s.doc_id = "" := by rw [hsd]; exact hd
  rw [show (match [s] with
    | [s] => if s.doc_id = "" then none else some s.doc_id
    | _ => none) = if s.doc_id = "" then none else some s.doc_id from rfl]
  rw [if_neg this, hsd]

/-- After a run with no ambiguous rows and no duplicate-matched students,
every non-empty row has an "anchor" document in the final store: it is
reachable by the row's keys and is a fixed point of merge-then-validate.
This is the heart of the idempotence argument. -/
theorem run_one_anchor (D : Int) (store0 : Store) (l : List (Nat × Row)) (st0 : ImpState)
    (hWF : StoreWF store0) (hst0 : st0.store = store0)
    (hamb : ∀ ir ∈ l, ambOf (load_students store0) ir = [])
    (hdup : ∀ d, l.countP (fun ir => matchedId (load_students store0) ir == some d) ≤ 1) :
    ∀ ir ∈ l, ¬ is_empty_row ir.2 = true →
      ∃ d m, List.lookup d (importLoop D (load_students store0) l st0).store = some m ∧
        d ≠ "" ∧ KeyedTo (build_name_pairs m) ir.2 ∧
        build_name_pairs (mergeUpdate D (build_name_pairs m) ir.2) = build_name_pairs m := by
  intro ir hmem hne
  have hsnapwf : SnapWF (load_students store0) := load_snapWF hWF
  set snap := load_students store0 with hsnap
  obtain ⟨l₁, l₂, rfl⟩ := List.append_of_mem hmem
  rw [importLoop_append, importLoop_cons]
  set stmid := importLoop D snap l₁ st0 with hstmid
  have hwfmid : StoreWF stmid.store := by
    rw [hstmid]
    exact importLoop_wf D snap l₁ st0 (by rw [hst0]; exact hWF)
  have hids0 : ∀ x ∈ storeIds store0, x ∈ storeIds stmid.store := by
    intro x hx
    rw [hstmid]
    exact importLoop_ids_mono D snap l₁ st0 x (by rw [hst0]; exact hx)
  have hamb_ir := hamb ir (by simp)
  unfold ambOf at hamb_ir
  rw [if_neg hne] at hamb_ir
  cases h : match_students snap ir.2 with
  | nil =>
    have hstep : (processRow D snap stmid ir).store =
        stmid.store ++ [(freshId stmid.store, build_name_pairs (createData D ir.2))] :=
      processRow_store_create D snap stmid ir hne h
    refine ⟨freshId stmid.store, build_name_pairs (createData D ir.2), ?_,
      freshId_ne_blank _, ?_, ?_⟩
    · rw [importLoop_lookup_stable D snap l₂ _ (freshId stmid.store) ?_ ?_]
      · rw [hstep]
        rw [lookup_append_none (lookup_none_iff.mpr (freshId_not_mem stmid.store))]
        simp [List.lookup]
      · rw [hstep]
        unfold storeIds
        rw [List.map_append, List.mem_append]
        right
        simp
      · intro ir2 _ hwr
        obtain ⟨_, s', hm', hsd', _, _⟩ := hwr
        have hs'mem : s' ∈ snap := match_students_subset hsnapwf s' (by rw [hm']; simp)
        have hins : s'.doc_id ∈ storeIds store0 := by
          obtain ⟨kv, hkv, hkveq⟩ := List.mem_map.mp hs'mem
          rw [← hkveq]
          exact List.mem_map.mpr ⟨kv, hkv, rfl⟩
        rw [hsd'] at hins
        exact freshId_not_mem stmid.store (hids0 _ hins)
    · rw [bnp_idem]
      exact keyed_of_created D ir.2
    · rw [bnp_idem]
      exact merge_fixed_of_created D ir.2
  | cons s rest =>
    cases rest with
    | cons s2 rest2 =>
      exfalso
      rw [h] at hamb_ir
      have hx : [(ir.1, multiReason (s :: s2 :: rest2))] = ([] : List (Nat × String)) := hamb_ir
      simp at hx
    | nil =>
      rw [h] at hamb_ir
      have hamb2 : (if s.doc_id = "" then [(ir.1, "matched student without doc_id")]
          else ([] : List (Nat × String))) = [] := hamb_ir
      have hid : s.doc_id ≠ "" := by
        intro hcontra
        rw [if_pos hcontra] at hamb2
        simp at hamb2
      have hs_mem : s ∈ snap := match_students_subset hsnapwf s (by rw [h]; simp)
      obtain ⟨kv, hkv, hkveq⟩ := List.mem_map.mp hs_mem
      have hkv1 : s.doc_id = kv.1 := by rw [← hkveq]
      have hstu : s.stu = build_name_pairs kv.2 := by rw [← hkveq]
      have hmemids : s.doc_id ∈ storeIds store0 := by
        rw [hkv1]
        exact List.mem_map.mpr ⟨kv, hkv, rfl⟩
      have hmid : matchedId snap ir = some s.doc_id := by
        unfold matchedId
        rw [if_neg hne, h]
        exact if_neg hid
      have hir_true : (matchedId snap ir == some s.doc_id) = true := beq_iff_eq.mpr hmid
      have hcnt := hdup s.doc_id
      rw [List.countP_append, List.countP_cons, hir_true, if_pos rfl] at hcnt
      have hc1 : l₁.countP (fun ir2 => matchedId snap ir2 == some s.doc_id) = 0 := by omega
      have hc2 : l₂.countP (fun ir2 => matchedId snap ir2 == some s.doc_id) = 0 := by omega
      have hw1 : ∀ ir2 ∈ l₁, ¬ writesId D snap ir2 s.doc_id := by
        intro ir2 h2 hwr
        have hb : (matchedId snap ir2 == some s.doc_id) = true :=
          beq_iff_eq.mpr (writesId_matchedId hwr)
        have hpos : 0 < l₁.countP (fun ir2 => matchedId snap ir2 == some s.doc_id) :=
          List.countP_pos.mpr ⟨ir2, h2, hb⟩
        omega
      have hw2 : ∀ ir2 ∈ l₂, ¬ writesId D snap ir2 s.doc_id := by
        intro ir2 h2 hwr
        have hb : (matchedId snap ir2 == some s.doc_id) = true :=
          beq_iff_eq.mpr (writesId_matchedId hwr)
        have hpos : 0 < l₂.countP (fun ir2 => matchedId snap ir2 == some s.doc_id) :=
          List.countP_pos.mpr ⟨ir2, h2, hb⟩
        omega
      by_cases hc : changedF D s ir.2
      · have hstep : (processRow D snap stmid ir).store =
            storeSet stmid.store s.doc_id (build_name_pairs (mergeUpdate D s.stu ir.2)) :=
          processRow_store_changed D snap stmid ir hne h hid hc
        refine ⟨s.doc_id, build_name_pairs (mergeUpdate D s.stu ir.2), ?_, hid, ?_, ?_⟩
        · rw [importLoop_lookup_stable D snap l₂ _ s.doc_id ?_ hw2]
          · rw [hstep]
            exact storeSet_lookup_self _ _ _
          · rw [hstep]
            exact mem_storeIds_storeSet_self _ _ _
        · rw [bnp_idem]
          exact keyed_of_merged D s.stu ir.2
        · rw [bnp_idem]
          exact merge_fixed_of_merged D s.stu ir.2
      · have hceq : build_name_pairs (mergeUpdate D s.stu ir.2) = s.stu := not_ne_iff.mp hc
        have hlook0 : List.lookup s.doc_id store0 = some kv.2 := by
          rw [hkv1]
          exact lookup_of_mem_nodup hWF.1 hkv
        have hstage1 : List.lookup s.doc_id stmid.store = some kv.2 := by
          rw [hstmid, importLoop_lookup_stable D snap l₁ st0 s.doc_id
            (by rw [hst0]; exact hmemids) hw1, hst0]
          exact hlook0
        have hstep : (processRow D snap stmid ir).store = stmid.store :=
          processRow_store_unchanged D snap stmid ir hne h hid hc
        refine ⟨s.doc_id, kv.2, ?_, hid, ?_, ?_⟩
        · rw [importLoop_lookup_stable D snap l₂ _ s.doc_id ?_ hw2, hstep]
          · exact hstage1
          · rw [hstep]
            exact hids0 _ hmemids
        · rw [← hstu, ← hceq]
          exact keyed_of_merged D s.stu ir.2
        · rw [← hstu]
          exact hceq

theorem flatMap_eq_nil_forall {α β : Type} {l : List α} {f : α → List β}
    (h : l.flatMap f = []) : ∀ x ∈ l, f x = [] := by
  induction l with
  | nil => intro x hx; cases hx
  | cons a t ih =>
    rw [List.flatMap_cons, List.append_eq_nil] at h
    intro x hx
    rcases List.mem_cons.mp hx with rfl | hx
    · exact h.1
    · exact ih h.2 x hx

/-- A row whose second-run snapshot contains a merge-fixed anchor student
carrying all its keys contributes nothing to the updated counter. -/
theorem updTick_zero_of_anchor {D : Int} {snap : List StoredStudent} (hs : SnapWF snap)
    (ir : Nat × Row)
    (h : ¬ is_empty_row ir.2 = true → ∃ A ∈ snap, KeyedTo A.stu ir.2 ∧
      build_name_pairs (mergeUpdate D A.stu ir.2) = A.stu) :
    updTick D snap ir = 0 := by
  unfold updTick
  by_cases he : is_empty_row ir.2
  · rw [if_pos he]
  · rw [if_neg he]
    obtain ⟨A, hA, hK, hfix⟩ := h he
    cases hm : match_students snap ir.2 with
    | nil => rfl
    | cons t rest =>
      cases rest with
      | nil =>
        show (if t.doc_id ≠ "" ∧ changedF D t ir.2 then 1 else 0) = 0
        rw [if_neg]
        rintro ⟨_, hch⟩
        by_cases hkey : norm_email ir.2.cub_email ≠ "" ∨ norm_email ir.2.personal_email ≠ "" ∨
            norm_tg ir.2.telegram_name ≠ "" ∨
            tokenize_names [ir.2.first_name, ir.2.last_name] ≠ []
        · have hmem := anchor_mem hs hA hK hkey
          rw [hm] at hmem
          have ht : A = t := by simpa using hmem
          rw [← ht] at hch
          exact hch hfix
        · push_neg at hkey
          have hnil := match_empty_of_no_keys hs hkey.1 hkey.2.1 hkey.2.2.1 hkey.2.2.2
          rw [hm] at hnil
          simp at hnil
      | cons t2 rest2 => rfl

/-- Re-running the same batch on the store a first run produced reports no
updates, provided the first run flagged nothing ambiguous and no two rows
resolved to the same stored student. -/
theorem reconcile_second_run_updated_zero (D : Int) (rows : List Row) (store0 : Store)
    (hWF : StoreWF store0)
    (hamb : (import_csv_file D rows store0).1.ambiguous_rows = [])
    (hdup : (import_csv_file D rows store0).1.duplicate_groups = []) :
    (import_csv_file D rows (import_csv_file D rows store0).2).1.updated = 0 := by
  set snap := load_students store0 with hsnap
  set st0 : ImpState :=
    { store := store0, created := 0, updated := 0, ambiguous_rows := [], groups := [] }
    with hst0def
  set l := List.enumFrom 2 rows with hl
  set fin := importLoop D snap l st0 with hfin
  have hstore1 : (import_csv_file D rows store0).2 = fin.store := rfl
  have hamb1 : fin.ambiguous_rows = [] := hamb
  have hdup1 : finalGroups fin.groups = [] := hdup
  have hambL : ∀ ir ∈ l, ambOf snap ir = [] := by
    have h1 : st0.ambiguous_rows ++ l.flatMap (ambOf snap) = [] := by
      rw [← importLoop_ambiguous]
      exact hamb1
    rw [show st0.ambiguous_rows = [] from rfl, List.nil_append] at h1
    exact flatMap_eq_nil_forall h1
  have hdupL : ∀ d, l.countP (fun ir => matchedId snap ir == some d) ≤ 1 := by
    intro d
    have hlen : ∀ kv ∈ fin.groups, ¬ (1 < kv.2.length) := by
      intro kv hkv hcon
      have hmemf : kv ∈ fin.groups.filter (fun kv => decide (1 < kv.2.length)) :=
        List.mem_filter.mpr ⟨hkv, by simpa⟩
      have hfil : fin.groups.filter (fun kv => decide (1 < kv.2.length)) = [] := by
        have := hdup1
        unfold finalGroups at this
        exact List.map_eq_nil_iff.mp this
      rw [hfil] at hmemf
      cases hmemf
    have hglen := importLoop_glen D snap l st0 d
    have hg0 : glen st0.groups d = 0 := rfl
    rw [← hfin, hg0, Nat.zero_add] at hglen
    rw [← hglen]
    unfold glen
    cases hlk : List.lookup d fin.groups with
    | none => simp
    | some w =>
      have hmem := lookup_mem hlk
      have h5 : ¬ 1 < w.length := hlen (d, w) hmem
      simp only [Option.getD_some]
      omega
  have hWF1 : StoreWF fin.store := by
    rw [hfin]
    exact importLoop_wf D snap l st0 hWF
  have hsnap2wf : SnapWF (load_students fin.store) := load_snapWF hWF1
  have hanchor := run_one_anchor D store0 l st0 hWF rfl hambL hdupL
  have hrun2 : (import_csv_file D rows fin.store).1.updated =
      (importLoop D (load_students fin.store) l
        { store := fin.store, created := 0, updated := 0, ambiguous_rows := [],
          groups := [] }).updated := rfl
  rw [hstore1, hrun2, importLoop_updated]
  show 0 + (l.map (updTick D (load_students fin.store))).sum = 0
  rw [Nat.zero_add]
  apply List.sum_eq_zero
  intro x hx
  obtain ⟨ir, hir, rfl⟩ := List.mem_map.mp hx
  apply updTick_zero_of_anchor hsnap2wf
  intro hne
  obtain ⟨d, m, hlook, hdne, hkeyed, hfix⟩ := hanchor ir hir hne
  refine ⟨⟨d, build_name_pairs m⟩, ?_, hkeyed, hfix⟩
  exact List.mem_map.mpr ⟨(d, m), lookup_mem hlook, rfl⟩

/-! ### Tokenizer: first-seen-order deduplication and token shape -/

/-- Spec-side description of the seen-set behaviour: deduplicate a list
keeping the first occurrence of each element, preserving order. -/
def dedupKeepFirst : List String → List String
  | [] => []
  | a :: t => a :: dedupKeepFirst (t.filter (fun b => b != a))
termination_by l => l.length
decreasing_by
  simp only [List.length_cons]
  have h := List.length_filter_le (fun b => b != a) t
  omega

theorem dedupKeepFirst_subset : ∀ l : List String, ∀ x ∈ dedupKeepFirst l, x ∈ l
  | [] => by
    intro x hx
    rw [dedupKeepFirst] at hx
    exact absurd hx (List.not_mem_nil x)
  | a :: t => by
    intro x hx
    rw [dedupKeepFirst] at hx
    rcases List.mem_cons.mp hx with rfl | hx
    · exact List.mem_cons_self x t
    · exact List.mem_cons_of_mem a
        (List.mem_of_mem_filter (dedupKeepFirst_subset (t.filter (fun b => b != a)) x hx))
termination_by l => l.length
decreasing_by
  simp only [List.length_cons]
  have h := List.length_filter_le (fun b => b != a) t
  omega

theorem dedupKeepFirst_nodup : ∀ l : List String, (dedupKeepFirst l).Nodup
  | [] => by rw [dedupKeepFirst]; exact List.nodup_nil
  | a :: t => by
    rw [dedupKeepFirst]
    refine List.nodup_cons.mpr ⟨?_, dedupKeepFirst_nodup (t.filter (fun b => b != a))⟩
    intro hmem
    have h := dedupKeepFirst_subset _ a hmem
    rw [List.mem_filter] at h
    simp at h
termination_by l => l.length
decreasing_by
  simp only [List.length_cons]
  have h := List.length_filter_le (fun b => b != a) t
  omega

theorem foldl_insertToken_dedup (l : List String) : ∀ acc : List String,
    l.foldl insertToken acc = acc ++ dedupKeepFirst (l.filter (fun b => decide (b ∉ acc))) := by
  induction l with
  | nil => intro acc; simp [dedupKeepFirst]
  | cons a t ih =>
    intro acc
    simp only [List.foldl_cons, List.filter_cons]
    by_cases ha : a ∈ acc
    · rw [if_neg (by simp [ha])]
      have hins : insertToken acc a = acc := by unfold insertToken; rw [if_pos ha]
      rw [hins, ih]
    · rw [if_pos (by simp [ha])]
      have hins : insertToken acc a = acc ++ [a] := by unfold insertToken; rw [if_neg ha]
      have hff : t.filter (fun b => decide (b ∉ acc ++ [a]))
          = (t.filter (fun b => decide (b ∉ acc))).filter (fun b => b != a) := by
        rw [List.filter_filter]
        apply List.filter_congr
        intro b _
        by_cases hb1 : b = a
        · subst hb1; simp
        · by_cases hb2 : b ∈ acc <;> simp [hb1, hb2]
      rw [hins, ih (acc ++ [a]), hff, dedupKeepFirst, List.append_assoc, List.singleton_append]

theorem tokenize_foldl_flat (parts : List String) : ∀ acc,
    parts.foldl (fun acc part =>
      if part = "" then acc else (partTokens part).foldl insertToken acc) acc
      = (parts.flatMap partTokens).foldl insertToken acc := by
  induction parts with
  | nil => intro acc; rfl
  | cons p t ih =>
    intro acc
    simp only [List.foldl_cons, List.flatMap_cons, List.foldl_append]
    by_cases hp : p = ""
    · rw [if_pos hp, hp, partTokens_empty, List.foldl_nil]
      exact ih acc
    · rw [if_neg hp]
      exact ih _

/-- `tokenize_names` is exactly: concatenate each part's token stream in
the order given, then deduplicate keeping the first occurrence. -/
theorem tokenize_eq_dedup (parts : List String) :
    tokenize_names parts = dedupKeepFirst (parts.flatMap partTokens) := by
  unfold tokenize_names
  rw [tokenize_foldl_flat, foldl_insertToken_dedup]
  have hf : (parts.flatMap partTokens).filter (fun b => decide (b ∉ ([] : List String)))
      = parts.flatMap partTokens := List.filter_eq_self.mpr (by intro a _; simp)
  rw [hf, List.nil_append]

theorem tokenize_nodup (parts : List String) : (tokenize_names parts).Nodup := by
  rw [tokenize_eq_dedup]
  exact dedupKeepFirst_nodup _

theorem runsAux_chars : ∀ (cs acc : List Char), (∀ c ∈ acc, isNameTokenChar c = true) →
    ∀ r ∈ runsAux cs acc, ∀ c ∈ r, isNameTokenChar c = true
  | [], acc => by
    intro hacc r hr c hc
    unfold runsAux at hr
    split at hr
    · exact absurd hr (List.not_mem_nil r)
    · rcases List.mem_singleton.mp hr with rfl
      exact hacc c (List.mem_reverse.mp hc)
  | b :: cs, acc => by
    intro hacc r hr c hc
    unfold runsAux at hr
    by_cases hb : isNameTokenChar b = true
    · rw [if_pos hb] at hr
      refine runsAux_chars cs (b :: acc) ?_ r hr c hc
      intro x hx
      rcases List.mem_cons.mp hx with rfl | hx
      · exact hb
      · exact hacc x hx
    · rw [if_neg hb] at hr
      split at hr
      · exact runsAux_chars cs [] (by intro x hx; cases hx) r hr c hc
      · rcases List.mem_cons.mp hr with rfl | hr
        · exact hacc c (List.mem_reverse.mp hc)
        · exact runsAux_chars cs [] (by intro x hx; cases hx) r hr c hc

theorem findRuns_chars (cs : List Char) : ∀ r ∈ findRuns cs, ∀ c ∈ r,
    isNameTokenChar c = true :=
  runsAux_chars cs [] (by intro c hc; cases hc)

theorem stripEdge_subset (t : List Char) : ∀ c ∈ stripEdge t, c ∈ t := by
  intro c hc
  unfold stripEdge at hc
  rw [List.mem_reverse] at hc
  have h1 := (List.dropWhile_sublist isEdgePunct).subset hc
  rw [List.mem_reverse] at h1
  exact (List.dropWhile_sublist isEdgePunct).subset h1

theorem stripEdge_last_false (t : List Char) {c : Char}
    (h : (stripEdge t).getLast? = some c) : isEdgePunct c = false := by
  unfold stripEdge at h
  rw [List.getLast?_reverse] at h
  cases hY : (t.dropWhile isEdgePunct).reverse.dropWhile isEdgePunct with
  | nil => rw [hY] at h; cases h
  | cons b tl =>
    rw [hY] at h
    simp only [List.head?_cons] at h
    cases h
    exact dropWhile_head_false isEdgePunct _ hY

theorem stripEdge_head_false (t : List Char) {c : Char}
    (h : (stripEdge t).head? = some c) : isEdgePunct c = false := by
  unfold stripEdge at h
  rw [List.head?_reverse] at h
  obtain ⟨pre, hpre⟩ := List.dropWhile_suffix (l := (t.dropWhile isEdgePunct).reverse) isEdgePunct
  have hXlast : ((t.dropWhile isEdgePunct).reverse).getLast? = some c := by
    rw [← hpre, List.getLast?_append, h]
    rfl
  rw [List.getLast?_reverse] at hXlast
  cases hY : t.dropWhile isEdgePunct with
  | nil => rw [hY] at hXlast; cases hXlast
  | cons b tl =>
    rw [hY] at hXlast
    simp only [List.head?_cons] at hXlast
    cases hXlast
    exact dropWhile_head_false isEdgePunct _ hY

/-- Every token emitted by one part is non-empty, made only of
name-token-class characters, and carries no leading or trailing
apostrophe or hyphen. -/
theorem partTokens_shape (p : String) : ∀ t ∈ partTokens p, t ≠ "" ∧
    (∀ c ∈ t.data, isNameTokenChar c = true) ∧
    (∀ c, t.data.head? = some c → isEdgePunct c = false) ∧
    (∀ c, t.data.getLast? = some c → isEdgePunct c = false) := by
  intro t ht
  unfold partTokens at ht
  rw [List.mem_filter] at ht
  obtain ⟨hmem, hne⟩ := ht
  rw [List.mem_map] at hmem
  obtain ⟨r, hr, rfl⟩ := hmem
  refine ⟨by simpa using hne, ?_, ?_, ?_⟩
  · intro c hc
    have hc2 : c ∈ stripEdge r := hc
    exact findRuns_chars _ r hr c (stripEdge_subset r c hc2)
  · intro c hc
    exact stripEdge_head_false r hc
  · intro c hc
    exact stripEdge_last_false r hc

theorem tokenize_shape (parts : List String) : ∀ t ∈ tokenize_names parts, t ≠ "" ∧
    (∀ c ∈ t.data, isNameTokenChar c = true) ∧
    (∀ c, t.data.head? = some c → isEdgePunct c = false) ∧
    (∀ c, t.data.getLast? = some c → isEdgePunct c = false) := by
  intro t ht
  obtain ⟨p, _, hp⟩ := (mem_tokenize parts t).mp ht
  exact partTokens_shape p t hp

/-! ### Ordered pairs: cardinality and membership -/

theorem filter_enum_length (l : List String) (k : Nat) (hk : k < l.length) :
    (l.enum.filter (fun q => q.1 != k)).length = l.length - 1 := by
  rw [← List.countP_eq_length_filter]
  have step1 : List.countP (fun q => q.1 != k) l.enum
      = List.countP (fun i => i != k) (List.range l.length) := by
    rw [← List.enum_map_fst l, List.countP_map]
    rfl
  rw [step1]
  have h2 : List.count k (List.range l.length) = 1 :=
    List.count_eq_one_of_mem (List.nodup_range l.length) (List.mem_range.mpr hk)
  have h4 : List.countP (fun i => i == k) (List.range l.length) = 1 := h2
  have h3 := List.length_eq_countP_add_countP (fun i => i == k) (List.range l.length)
  rw [List.length_range] at h3
  simp only [decide_not, Bool.decide_coe] at h3
  have h5 : List.countP (fun i => i != k) (List.range l.length)
      = List.countP (fun a => !(a == k)) (List.range l.length) := rfl
  omega

/-- `generate_ordered_pairs` emits exactly `n * (n - 1)` pairs. -/
theorem generate_ordered_pairs_length (ts : List String) :
    (generate_ordered_pairs ts).length = ts.length * (ts.length - 1) := by
  unfold generate_ordered_pairs
  rw [List.length_flatMap]
  have hmap : List.map (List.length ∘ fun p =>
      ((ts.enum).filter (fun q => q.1 != p.1)).map (fun q => p.2 ++ " " ++ q.2)) ts.enum
      = List.map (fun _ => ts.length - 1) ts.enum := by
    apply List.map_congr_left
    intro p hp
    have hk : p.1 < ts.length := by
      have h := List.mem_enum_iff_getElem?.mp hp
      exact (List.getElem?_eq_some.mp h).1
    simp only [Function.comp, List.length_map]
    exact filter_enum_length ts p.1 hk
  rw [hmap]
  have hsum : ∀ (L : List (Nat × String)) (c : Nat),
      (List.map (fun _ => c) L).sum = L.length * c := by
    intro L c
    induction L with
    | nil => simp
    | cons a t ih => simp [ih, Nat.succ_mul]; omega
  rw [hsum, List.enum_length]

/-- On duplicate-free token lists, the emitted pairs are exactly the
renderings `a ++ " " ++ b` of ordered pairs of distinct members. -/
theorem mem_generate_ordered_pairs {ts : List String} (hnd : ts.Nodup) (x : String) :
    x ∈ generate_ordered_pairs ts ↔
      ∃ a b, a ∈ ts ∧ b ∈ ts ∧ a ≠ b ∧ x = a ++ " " ++ b := by
  unfold generate_ordered_pairs
  rw [List.mem_flatMap]
  constructor
  · rintro ⟨p, hp, hx⟩
    rw [List.mem_map] at hx
    rcases hx with ⟨q, hq, hxe⟩
    rw [List.mem_filter] at hq
    rcases hq with ⟨hq, hne⟩
    have hpg := List.mem_enum_iff_getElem?.mp hp
    have hqg := List.mem_enum_iff_getElem?.mp hq
    have hpl := (List.getElem?_eq_some.mp hpg).1
    have hql := (List.getElem?_eq_some.mp hqg).1
    have hpv : ts[p.1] = p.2 := (List.getElem?_eq_some.mp hpg).2
    have hqv : ts[q.1] = q.2 := (List.getElem?_eq_some.mp hqg).2
    refine ⟨p.2, q.2, ?_, ?_, ?_, hxe.symm⟩
    · rw [← hpv]; exact List.getElem_mem hpl
    · rw [← hqv]; exact List.getElem_mem hql
    · intro hab
      have hidx : p.1 = q.1 := by
        have hts : ts[p.1] = ts[q.1] := by rw [hpv, hqv, hab]
        exact (hnd.getElem_inj_iff).mp hts
      simp [hidx] at hne
  · rintro ⟨a, b, ha, hb, hab, hx⟩
    rcases List.mem_iff_getElem.mp ha with ⟨i, hi, hia⟩
    rcases List.mem_iff_getElem.mp hb with ⟨j, hj, hjb⟩
    refine ⟨(i, a), ?_, ?_⟩
    · rw [List.mem_enum_iff_getElem?]
      simp [List.getElem?_eq_some]
      exact ⟨hi, hia⟩
    · rw [List.mem_map]
      refine ⟨(j, b), ?_, hx.symm⟩
      rw [List.mem_filter]
      constructor
      · rw [List.mem_enum_iff_getElem?]
        simp [List.getElem?_eq_some]
        exact ⟨hj, hjb⟩
      · simp only [bne_iff_ne, ne_eq, decide_eq_true_eq]
        intro hji
        subst hji
        exact hab (hia.symm.trans hjb)

/-! ### Search service: unfolding and membership -/

/-- The document ids of a dict's value list are pairwise distinct. -/
theorem values_ids_nodup {snap : List StoredStudent} {m : List (String × StoredStudent)}
    (hm : GoodDict snap m) (hk : (m.map (fun kv => kv.1)).Nodup) :
    ((m.map (fun kv => kv.2)).map (fun s => s.doc_id)).Nodup := by
  rw [List.map_map]
  have he : m.map ((fun s => s.doc_id) ∘ (fun kv => kv.2)) = m.map (fun kv => kv.1) :=
    List.map_congr_left (fun kv hkv => (hm kv hkv).2)
  rw [he]
  exact hk

theorem mem_fetch_by_pair {st : Store} {pair : String} {x : StoredStudent} :
    x ∈ fetch_by_pair st pair ↔
      ∃ kv ∈ st, kv.2.name_pairs.contains pair ∧ x = ⟨kv.1, build_name_pairs kv.2⟩ := by
  unfold fetch_by_pair
  rw [List.mem_map]
  constructor
  · rintro ⟨kv, hkv, rfl⟩
    rw [List.mem_filter] at hkv
    exact ⟨kv, hkv.1, hkv.2, rfl⟩
  · rintro ⟨kv, hkv, hc, rfl⟩
    exact ⟨kv, List.mem_filter.mpr ⟨hkv, hc⟩, rfl⟩

theorem fetch_by_pair_subset (st : Store) (pair : String) :
    ∀ x ∈ fetch_by_pair st pair, x ∈ load_students st := by
  intro x hx
  obtain ⟨kv, hkv, _, rfl⟩ := mem_fetch_by_pair.mp hx
  exact List.mem_map.mpr ⟨kv, hkv, rfl⟩

/-- The pair loop of `search_students`: folding `upsertAll` of per-key
result lists over a key list keeps the dict invariants, and its values are
the union of the per-key results. -/
theorem foldl_upsert_lists {snap : List StoredStudent} (hs : SnapWF snap)
    (F : String → List StoredStudent) (hF : ∀ p, ∀ x ∈ F p, x ∈ snap) :
    ∀ (ps : List String) (m : List (String × StoredStudent)) (_ : GoodDict snap m)
      (_ : (m.map (fun kv => kv.1)).Nodup),
      GoodDict snap (ps.foldl (fun m pair => upsertAll m (F pair)) m) ∧
      (((ps.foldl (fun m pair => upsertAll m (F pair)) m).map (fun kv => kv.1)).Nodup) ∧
      ∀ x, x ∈ (ps.foldl (fun m pair => upsertAll m (F pair)) m).map (fun kv => kv.2) ↔
        x ∈ m.map (fun kv => kv.2) ∨ ∃ p ∈ ps, x ∈ F p := by
  intro ps
  induction ps with
  | nil =>
    intro m hm hk
    exact ⟨hm, hk, fun x => by simp⟩
  | cons p ps ih =>
    intro m hm hk
    simp only [List.foldl_cons]
    obtain ⟨hg1, hmem1⟩ := upsertAll_good_and_mem hs (F p) m hm (hF p)
    obtain ⟨hg, hknd, hmem⟩ := ih (upsertAll m (F p)) hg1 (keys_upsertAll_nodup _ hk)
    refine ⟨hg, hknd, fun x => ?_⟩
    rw [hmem x, hmem1 x]
    simp only [List.mem_cons]
    constructor
    · rintro ((h | h) | ⟨q, hq, hx⟩)
      · exact Or.inl h
      · exact Or.inr ⟨p, Or.inl rfl, h⟩
      · exact Or.inr ⟨q, Or.inr hq, hx⟩
    · rintro (h | ⟨q, (rfl | hq), hx⟩)
      · exact Or.inl (Or.inl h)
      · exact Or.inl (Or.inr hx)
      · exact Or.inr ⟨q, hq, hx⟩

/-- The `found` dict after the ordered-pair phase of `search_students`. -/
def pairDictOf (st : Store) (query : String) : List (String × StoredStudent) :=
  if 2 ≤ (tokenize_names [normalize query]).length then
    (generate_ordered_pairs (tokenize_names [normalize query])).foldl
      (fun m pair => upsertAll m (fetch_by_pair st pair)) []
  else []

/-- The dict after the fallback scan of `search_students`, which continues
from the pair-phase dict. -/
def scanDictOf (st : Store) (query : String) : List (String × StoredStudent) :=
  (fetch_all st).foldl (fun m s =>
    if (tokenize_names [normalize s.stu.first_name]).contains
        ((tokenize_names [normalize query]).headD "") ||
       (tokenize_names [normalize s.stu.last_name]).contains
        ((tokenize_names [normalize query]).headD "") then
      (if s.doc_id != "" then dictUpsert m s.doc_id s else m)
    else m) (pairDictOf st query)

/-- Let-free unfolding of `search_students`. -/
theorem search_students_eq (st : Store) (query : String) :
    search_students st query =
      if tokenize_names [normalize query] = [] then []
      else if 2 ≤ (tokenize_names [normalize query]).length ∧ pairDictOf st query ≠ [] then
        (pairDictOf st query).map (fun kv => kv.2)
      else (scanDictOf st query).map (fun kv => kv.2) := rfl

/-- The guarded fallback-scan fold is `upsertAll` over the token-filtered
student list. -/
theorem scan_fold_eq (L : List StoredStudent) (m : List (String × StoredStudent))
    (tok : String) :
    L.foldl (fun m s =>
      if (tokenize_names [normalize s.stu.first_name]).contains tok ||
         (tokenize_names [normalize s.stu.last_name]).contains tok then
        (if s.doc_id != "" then dictUpsert m s.doc_id s else m)
      else m) m =
    upsertAll m (L.filter (fun s =>
      (tokenize_names [normalize s.stu.first_name]).contains tok ||
      (tokenize_names [normalize s.stu.last_name]).contains tok)) := by
  induction L generalizing m with
  | nil => rfl
  | cons s rest ih =>
    simp only [List.foldl_cons, List.filter_cons]
    by_cases hcond : ((tokenize_names [normalize s.stu.first_name]).contains tok ||
        (tokenize_names [normalize s.stu.last_name]).contains tok) = true
    · rw [if_pos hcond, if_pos hcond, ih]
      unfold upsertAll
      simp only [List.foldl_cons]
    · rw [if_neg hcond, if_neg hcond]
      exact ih m

/-! ### Email tier: distinct keys and the single-match case -/

theorem emailTier_keys_nodup (snap : List StoredStudent) (row : Row) :
    ((emailTierDict snap row).map (fun kv => kv.1)).Nodup := by
  unfold emailTierDict
  simp only [List.foldl_cons, List.foldl_nil]
  by_cases h2 : (norm_email row.personal_email != "") = true
  · rw [if_pos h2]
    by_cases h1 : (norm_email row.cub_email != "") = true
    · rw [if_pos h1]
      exact keys_upsertAll_nodup _ (keys_upsertAll_nodup _ (by simp))
    · rw [if_neg h1]
      exact keys_upsertAll_nodup _ (by simp)
  · rw [if_neg h2]
    by_cases h1 : (norm_email row.cub_email != "") = true
    · rw [if_pos h1]
      exact keys_upsertAll_nodup _ (by simp)
    · rw [if_neg h1]
      simp

/-- When exactly one snapshot student satisfies the email predicate, the
match result is that one student alone: the dict keyed by `doc_id`
collapses the repeated hits. -/
theorem email_unique_match {snap : List StoredStudent} {row : Row} {s : StoredStudent}
    (hs : SnapWF snap) (hsnap : s ∈ snap) (hnon : emailPred row s)
    (huniq : ∀ x ∈ snap, emailPred row x → x = s) :
    match_students snap row = [s] := by
  obtain ⟨hg, hm⟩ := emailTier_good_and_mem hs row
  have hne : emailTierDict snap row ≠ [] := by
    intro hnil
    have hsm := (hm s).mpr ⟨hsnap, hnon⟩
    rw [hnil] at hsm
    simp at hsm
  rw [match_students_eq, if_pos hne]
  apply values_singleton hg (emailTier_keys_nodup snap row) ?_ hne
  intro x hx
  obtain ⟨hxs, hxp⟩ := (hm x).mp hx
  exact huniq x hxs hxp

/-! ### Concrete fixtures -/

/-- A stored student with consistent `name_pairs`. -/
def johnStu : Student :=
  { first_name := "John", last_name := "Doe", name_pairs := ["john doe", "doe john"]
    cub_email := "", personal_email := "john@x.com", telegram_name := ""
    telegram_id := 0, admission_year := 2025, scholarship := "", citizenship := ""
    public_comment := "", secret_comment := "", matric_number := none }

/-- A row that matches `johnStu` by personal email and renames him. -/
def rowPeter : Row :=
  { first_name := "Peter", last_name := "", personal_email := "john@x.com", cub_email := ""
    telegram_name := "", matric_number := "", citizenship := "", scholarship := ""
    public_comment := "" }

/-- A stored student whose `admission_year` is the falsy `0`. -/
def carlStu : Student :=
  { first_name := "Carl", last_name := "Sagan", name_pairs := ["carl sagan", "sagan carl"]
    cub_email := "", personal_email := "c@x.com", telegram_name := ""
    telegram_id := 0, admission_year := 0, scholarship := "", citizenship := ""
    public_comment := "", secret_comment := "", matric_number := none }

/-- A row matching `carlStu` by email, supplying only a scholarship. -/
def rowCarl : Row :=
  { first_name := "", last_name := "", personal_email := "c@x.com", cub_email := ""
    telegram_name := "", matric_number := "", citizenship := "", scholarship := "S"
    public_comment := "" }

/-- A stored student targeted by two conflicting rows. -/
def bobStu : Student :=
  { first_name := "Bob", last_name := "Marley", name_pairs := ["bob marley", "marley bob"]
    cub_email := "", personal_email := "b@x.com", telegram_name := ""
    telegram_id := 0, admission_year := 2025, scholarship := "Z", citizenship := ""
    public_comment := "", secret_comment := "", matric_number := none }

/-- A row matching `bobStu` by email, setting scholarship `X`. -/
def rowA : Row :=
  { first_name := "", last_name := "", personal_email := "b@x.com", cub_email := ""
    telegram_name := "", matric_number := "", citizenship := "", scholarship := "X"
    public_comment := "" }

/-- The same row with scholarship `Y` instead. -/
def rowB : Row := { rowA with scholarship := "Y" }

/-- First of two stored students sharing a telegram handle. -/
def tgStuA : Student :=
  { first_name := "Ann", last_name := "One", name_pairs := ["ann one", "one ann"]
    cub_email := "", personal_email := "", telegram_name := "@dup"
    telegram_id := 0, admission_year := 2025, scholarship := "", citizenship := ""
    public_comment := "", secret_comment := "", matric_number := none }

/-- Second of two stored students sharing a telegram handle. -/
def tgStuB : Student :=
  { first_name := "Ben", last_name := "Two", name_pairs := ["ben two", "two ben"]
    cub_email := "", personal_email := "", telegram_name := "@dup"
    telegram_id := 0, admission_year := 2025, scholarship := "", citizenship := ""
    public_comment := "", secret_comment := "", matric_number := none }

/-- A row carrying only the shared telegram handle. -/
def tgRow : Row :=
  { first_name := "", last_name := "", personal_email := "", cub_email := ""
    telegram_name := "@dup", matric_number := "", citizenship := "", scholarship := ""
    public_comment := "" }

/-- A stored student with both a CUB and a personal email. -/
def dupEmailStu : Student :=
  { first_name := "Dana", last_name := "Fox", name_pairs := ["dana fox", "fox dana"]
    cub_email := "d@cub.de", personal_email := "d@gmail.com", telegram_name := ""
    telegram_id := 0, admission_year := 2025, scholarship := "", citizenship := ""
    public_comment := "", secret_comment := "", matric_number := none }

/-- A row supplying both of `dupEmailStu`'s emails at once. -/
def dupEmailRow : Row :=
  { first_name := "", last_name := "", personal_email := "d@gmail.com", cub_email := "d@cub.de"
    telegram_name := "", matric_number := "", citizenship := "", scholarship := ""
    public_comment := "" }

/-! ### Claim theorems -/

/-- Claim C1: the spec says every store write of reconcile recomputes
`name_pairs` from the merged names. The code does not: a row that matches
`johnStu` by email and renames him to Peter is persisted (`updated = 1`)
with the merged name `Peter Doe` but with the stale pairs
`["john doe", "doe john"]`, not the recomputed
`["peter doe", "doe peter"]` — the merge carries the old non-empty
`name_pairs` forward and the validator refills only empty ones. -/
theorem C1_stale_name_pairs :
    (import_csv_file 2025 [rowPeter] [("id1", johnStu)]).1.updated = 1 ∧
    ((import_csv_file 2025 [rowPeter] [("id1", johnStu)]).2.lookup "id1").map
      (fun d => (d.first_name, d.last_name, d.name_pairs)) =
      some ("Peter", "Doe", ["john doe", "doe john"]) ∧
    generate_ordered_pairs (tokenize_names ["Peter", "Doe"]) = ["peter doe", "doe peter"] :=
  ⟨by decide, by decide, by decide⟩

/-- Claim C4 (amended): the merge into a matched student is a
non-destructive fill — each of the nine row-supplied fields overwrites
only when the row value is nonempty, and `secret_comment`, `telegram_id`
and `name_pairs` are untouched — but `admission_year` is preserved only
when nonzero: a falsy stored `0` is replaced by the service default. -/
theorem C4_merge_nondestructive (D : Int) (b : Student) (r : Row) :
    (mergeUpdate D b r).first_name = (if r.first_name = "" then b.first_name else r.first_name) ∧
    (mergeUpdate D b r).last_name = (if r.last_name = "" then b.last_name else r.last_name) ∧
    (mergeUpdate D b r).cub_email = (if r.cub_email = "" then b.cub_email else r.cub_email) ∧
    (mergeUpdate D b r).personal_email =
      (if r.personal_email = "" then b.personal_email else r.personal_email) ∧
    (mergeUpdate D b r).telegram_name =
      (if r.telegram_name = "" then b.telegram_name else r.telegram_name) ∧
    (mergeUpdate D b r).matric_number =
      (if r.matric_number = "" then b.matric_number else some r.matric_number) ∧
    (mergeUpdate D b r).citizenship =
      (if r.citizenship = "" then b.citizenship else r.citizenship) ∧
    (mergeUpdate D b r).scholarship =
      (if r.scholarship = "" then b.scholarship else r.scholarship) ∧
    (mergeUpdate D b r).public_comment =
      (if r.public_comment = "" then b.public_comment else r.public_comment) ∧
    (mergeUpdate D b r).secret_comment = b.secret_comment ∧
    (mergeUpdate D b r).telegram_id = b.telegram_id ∧
    (mergeUpdate D b r).name_pairs = b.name_pairs ∧
    (mergeUpdate D b r).admission_year =
      (if b.admission_year = 0 then D else b.admission_year) := by
  refine ⟨rfl, rfl, rfl, rfl, rfl, rfl, rfl, rfl, rfl, rfl, ?_, rfl, rfl⟩
  show pyOrInt b.telegram_id 0 = b.telegram_id
  unfold pyOrInt
  by_cases h : b.telegram_id = 0
  · rw [if_pos h, h]
  · rw [if_neg h]

/-- A student stored with the falsy `admission_year = 0` comes out of a
merge with the default year `2025` although the feed carries no such
field: the claim's frame condition fails for `admission_year`. -/
theorem C4_counterexample :
    carlStu.admission_year = 0 ∧
    ((import_csv_file 2025 [rowCarl] [("id1", carlStu)]).2.lookup "id1").map
      (fun d => d.admission_year) = some 2025 :=
  ⟨by decide, by decide⟩

/-- Claim C5 (amended): rerunning reconcile on the same batch reports
`updated = 0` — provided the first run flagged no ambiguous rows and no
duplicate groups. (Unrestricted idempotence fails: matching is computed
against a start-of-run snapshot, so two conflicting rows aimed at one
student both count as updates on every run.) -/
theorem C5_second_run_no_updates (D : Int) (rows : List Row) (store0 : Store)
    (hWF : StoreWF store0)
    (hamb : (import_csv_file D rows store0).1.ambiguous_rows = [])
    (hdup : (import_csv_file D rows store0).1.duplicate_groups = []) :
    (import_csv_file D rows (import_csv_file D rows store0).2).1.updated = 0 :=
  reconcile_second_run_updated_zero D rows store0 hWF hamb hdup

theorem C5_second_run_witness :
    StoreWF [("id1", bobStu)] ∧
    (import_csv_file 2025 [rowA] [("id1", bobStu)]).1.ambiguous_rows = [] ∧
    (import_csv_file 2025 [rowA] [("id1", bobStu)]).1.duplicate_groups = [] ∧
    (import_csv_file 2025 [rowA] (import_csv_file 2025 [rowA] [("id1", bobStu)]).2).1.updated = 0 :=
  ⟨⟨by decide, by decide⟩, by decide, by decide,
    C5_second_run_no_updates 2025 [rowA] [("id1", bobStu)] ⟨by decide, by decide⟩
      (by decide) (by decide)⟩

/-- Two conflicting rows for the same student (scholarship `X` then `Y`)
give `updated = 2` on the first run and `updated = 1` — not `0` — on the
second: reconciliation is not idempotent on the update count as claimed. -/
theorem C5_counterexample :
    (import_csv_file 2025 [rowA, rowB] [("id1", bobStu)]).1.updated = 2 ∧
    (import_csv_file 2025 [rowA, rowB]
      (import_csv_file 2025 [rowA, rowB] [("id1", bobStu)]).2).1.updated = 1 :=
  ⟨by decide, by decide⟩

/-- Claim C9 (amended): a supplied `name_pairs` value is trusted as-is
only when it is non-empty; a supplied empty sequence is falsy for the
validator and is recomputed from `first_name` and `last_name`. -/
theorem C9_supplied_pairs (s : Student) :
    (s.name_pairs ≠ [] → build_name_pairs s = s) ∧
    (s.name_pairs = [] → (build_name_pairs s).name_pairs =
      generate_ordered_pairs (tokenize_names [s.first_name, s.last_name])) := by
  constructor
  · intro h
    unfold build_name_pairs
    rw [if_neg h]
  · intro h
    unfold build_name_pairs
    rw [if_pos h]

theorem C9_supplied_pairs_witness :
    ({ johnStu with name_pairs := ["kept"] } : Student).name_pairs ≠ [] ∧
    build_name_pairs { johnStu with name_pairs := ["kept"] } =
      { johnStu with name_pairs := ["kept"] } :=
  ⟨by decide, (C9_supplied_pairs { johnStu with name_pairs := ["kept"] }).1 (by decide)⟩

/-- A caller explicitly supplying the empty `name_pairs` sequence does not
get it trusted as-is: construction recomputes the pairs from the names,
refuting the claim's "every supplied value including the empty sequence". -/
theorem C9_counterexample :
    (build_name_pairs { johnStu with name_pairs := [] }).name_pairs =
      ["john doe", "doe john"] ∧
    (["john doe", "doe john"] : List String) ≠ [] :=
  ⟨by decide, by decide⟩

/-- Claim C2: match resolution is strictly tiered and never mixes tiers:
when some snapshot student satisfies the email predicate the match result
is exactly the email-tier set; only with an empty email tier does a
nonempty telegram tier decide; only with both empty does the name-token
superset tier decide. -/
theorem C2_match_tiers {snap : List StoredStudent} {row : Row} (hs : SnapWF snap) :
    ((∃ x ∈ snap, emailPred row x) →
      ∀ y, y ∈ match_students snap row ↔ y ∈ snap ∧ emailPred row y) ∧
    ((¬ ∃ x ∈ snap, emailPred row x) → (∃ x ∈ snap, tgPred row x) →
      ∀ y, y ∈ match_students snap row ↔ y ∈ snap ∧ tgPred row y) ∧
    ((¬ ∃ x ∈ snap, emailPred row x) → (¬ ∃ x ∈ snap, tgPred row x) →
      ∀ y, y ∈ match_students snap row ↔ y ∈ snap ∧ namePred row y) :=
  ⟨fun h => match_students_email hs h,
   fun h1 h2 => match_students_tg hs h1 h2,
   fun h1 h2 => match_students_name hs h1 h2⟩

theorem C2_match_tiers_witness :
    SnapWF (load_students [("id1", johnStu)]) ∧
    ((∃ x ∈ load_students [("id1", johnStu)], emailPred rowPeter x) →
      ∀ y, y ∈ match_students (load_students [("id1", johnStu)]) rowPeter ↔
        y ∈ load_students [("id1", johnStu)] ∧ emailPred rowPeter y) :=
  ⟨⟨by decide, by decide⟩, (C2_match_tiers ⟨by decide, by decide⟩).1⟩

/-- Claim C6: a row with several matches, or whose single match lacks a
document id, only appends one `(row_index, reason)` entry to the ambiguous
list — every other loop-state component (store, created, updated, groups)
is untouched — and the loop goes on processing the remaining rows from
that state. -/
theorem C6_ambiguous_row (D : Int) (snap : List StoredStudent) (st : ImpState)
    (idx : Nat) (row : Row) (rest : List (Nat × Row))
    (hne : is_empty_row row = false)
    (h : 1 < (match_students snap row).length ∨
      ∃ s, match_students snap row = [s] ∧ s.doc_id = "") :
    ∃ reason,
      processRow D snap st (idx, row) =
        { st with ambiguous_rows := st.ambiguous_rows ++ [(idx, reason)] } ∧
      importLoop D snap ((idx, row) :: rest) st =
        importLoop D snap rest
          { st with ambiguous_rows := st.ambiguous_rows ++ [(idx, reason)] } := by
  have hloop : ∀ st2 : ImpState, processRow D snap st (idx, row) = st2 →
      importLoop D snap ((idx, row) :: rest) st = importLoop D snap rest st2 := by
    intro st2 h2
    rw [importLoop_cons, h2]
  rcases h with hlen | ⟨s, hms, hid⟩
  · cases hm : match_students snap row with
    | nil => rw [hm] at hlen; simp at hlen
    | cons s1 tail =>
      cases tail with
      | nil => rw [hm] at hlen; simp at hlen
      | cons s2 t2 =>
        have hmain : processRow D snap st (idx, row) =
            { st with ambiguous_rows :=
                st.ambiguous_rows ++ [(idx, multiReason (s1 :: s2 :: t2))] } := by
          show (if is_empty_row row then st
            else processRowWith D st idx row (match_students snap row)) = _
          rw [if_neg (by simp [hne]), hm]
          rfl
        exact ⟨multiReason (s1 :: s2 :: t2), hmain, hloop _ hmain⟩
  · have hmain : processRow D snap st (idx, row) =
        { st with ambiguous_rows :=
            st.ambiguous_rows ++ [(idx, "matched student without doc_id")] } := by
      show (if is_empty_row row then st
        else processRowWith D st idx row (match_students snap row)) = _
      rw [if_neg (by simp [hne]), hms]
      simp only [processRowWith]
      rw [if_pos hid]
    exact ⟨"matched student without doc_id", hmain, hloop _ hmain⟩

/-- The snapshot of two students sharing a telegram handle. -/
def tgSnap : List StoredStudent := load_students [("idA", tgStuA), ("idB", tgStuB)]

/-- A loop state over that store. -/
def tgSt0 : ImpState := ⟨[("idA", tgStuA), ("idB", tgStuB)], 0, 0, [], []⟩

theorem C6_ambiguous_row_witness :
    is_empty_row tgRow = false ∧
    (1 < (match_students tgSnap tgRow).length ∨
      ∃ s, match_students tgSnap tgRow = [s] ∧ s.doc_id = "") ∧
    ∃ reason,
      processRow 2025 tgSnap tgSt0 (2, tgRow) =
        { tgSt0 with ambiguous_rows := tgSt0.ambiguous_rows ++ [(2, reason)] } ∧
      importLoop 2025 tgSnap [(2, tgRow)] tgSt0 =
        importLoop 2025 tgSnap []
          { tgSt0 with ambiguous_rows := tgSt0.ambiguous_rows ++ [(2, reason)] } :=
  ⟨by decide, Or.inl (by decide),
    C6_ambiguous_row 2025 tgSnap tgSt0 2 tgRow [] (by decide) (Or.inl (by decide))⟩

/-- Claim C7: tokenization is exactly: per-part token extraction (on the
normalized part: canonical normalization, lowercase, trim, punctuation
canonicalization) concatenated across the parts in order and deduplicated
keeping the first occurrence; the result is duplicate-free and every token
is nonempty, consists of name-token-class characters, and starts and ends
with neither apostrophe nor hyphen; the spec's example evaluates as
stated, and duplicates across parts collapse. -/
theorem C7_tokenize_pipeline (parts : List String) :
    tokenize_names parts = dedupKeepFirst (parts.flatMap partTokens) ∧
    (tokenize_names parts).Nodup ∧
    (∀ t ∈ tokenize_names parts, t ≠ "" ∧
      (∀ c ∈ t.data, isNameTokenChar c = true) ∧
      (∀ c, t.data.head? = some c → isEdgePunct c = false) ∧
      (∀ c, t.data.getLast? = some c → isEdgePunct c = false)) ∧
    tokenize_names ["Mary-Jane", "O\x27Neil"] = ["mary-jane", "o\x27neil"] ∧
    tokenize_names ["John", "John Doe"] = ["john", "doe"] :=
  ⟨tokenize_eq_dedup parts, tokenize_nodup parts, tokenize_shape parts, by decide, by decide⟩

/-- Claim C8: on `n` distinct tokens, `generate_ordered_pairs` emits
exactly the `n * (n - 1)` renderings `"a b"` of ordered pairs of distinct
tokens; the two-token example evaluates as specified and zero or one token
give the empty list. -/
theorem C8_ordered_pairs (ts : List String) (hnd : ts.Nodup) :
    (generate_ordered_pairs ts).length = ts.length * (ts.length - 1) ∧
    (∀ x, x ∈ generate_ordered_pairs ts ↔
      ∃ a b, a ∈ ts ∧ b ∈ ts ∧ a ≠ b ∧ x = a ++ " " ++ b) ∧
    generate_ordered_pairs ["john", "doe"] = ["john doe", "doe john"] ∧
    generate_ordered_pairs ([] : List String) = [] ∧
    ∀ t : String, generate_ordered_pairs [t] = [] :=
  ⟨generate_ordered_pairs_length ts, fun x => mem_generate_ordered_pairs hnd x,
   by decide, rfl, fun t => rfl⟩

theorem C8_ordered_pairs_witness :
    (["john", "doe"] : List String).Nodup ∧
    (generate_ordered_pairs ["john", "doe"]).length = 2 * (2 - 1) :=
  ⟨by decide, (C8_ordered_pairs ["john", "doe"] (by decide)).1⟩

/-- Claim C10: a row whose two emails both hit the same stored student
yields exactly one match — the email-tier dict collapses hits by document
id — so the row is merged, and in particular contributes nothing to the
ambiguous list. -/
theorem C10_single_match_same_student {snap : List StoredStudent} {row : Row}
    {s : StoredStudent} (hs : SnapWF snap) (hsnap : s ∈ snap) (hnon : emailPred row s)
    (huniq : ∀ x ∈ snap, emailPred row x → x = s) (D : Int) (st : ImpState) (idx : Nat) :
    match_students snap row = [s] ∧
    (processRow D snap st (idx, row)).ambiguous_rows = st.ambiguous_rows := by
  have hmatch := email_unique_match hs hsnap hnon huniq
  refine ⟨hmatch, ?_⟩
  have hrow : ¬ (is_empty_row row = true) := by
    intro h
    simp only [is_empty_row, Bool.and_eq_true, beq_iff_eq] at h
    obtain ⟨⟨⟨⟨⟨⟨⟨⟨_, _⟩, h3⟩, h4⟩, _⟩, _⟩, _⟩, _⟩, _⟩ := h
    rcases hnon with ⟨hne, _⟩ | ⟨hne, _⟩
    · exact hne (by rw [h4]; decide)
    · exact hne (by rw [h3]; decide)
  have hs_id : s.doc_id ≠ "" := hs.2 s hsnap
  show (if is_empty_row row then st
    else processRowWith D st idx row (match_students snap row)).ambiguous_rows =
      st.ambiguous_rows
  rw [if_neg hrow, hmatch]
  simp only [processRowWith]
  rw [if_neg hs_id]

theorem C10_single_match_witness :
    SnapWF (load_students [("idA", dupEmailStu)]) ∧
    (⟨"idA", build_name_pairs dupEmailStu⟩ : StoredStudent) ∈
      load_students [("idA", dupEmailStu)] ∧
    emailPred dupEmailRow ⟨"idA", build_name_pairs dupEmailStu⟩ ∧
    (∀ x ∈ load_students [("idA", dupEmailStu)], emailPred dupEmailRow x →
      x = ⟨"idA", build_name_pairs dupEmailStu⟩) ∧
    match_students (load_students [("idA", dupEmailStu)]) dupEmailRow =
      [⟨"idA", build_name_pairs dupEmailStu⟩] :=
  ⟨⟨by decide, by decide⟩, by decide, by unfold emailPred; decide,
    by unfold emailPred; decide,
    (C10_single_match_same_student ⟨by decide, by decide⟩ (by decide)
      (by unfold emailPred; decide) (by unfold emailPred; decide) 2025
      ⟨[("idA", dupEmailStu)], 0, 0, [], []⟩ 2).1⟩

/-- Claim C3: search returns nothing for a tokenless query; with two or
more tokens whose ordered-pair index lookups hit anything, exactly the
id-deduplicated union of those lookups (no fallback scan); and otherwise —
one token, or an empty pair union — exactly the stored students whose
first-name or last-name token set contains the first query token, later
tokens being ignored. -/
theorem C3_search_characterization (st : Store) (query : String) (hWF : StoreWF st) :
    (tokenize_names [query] = [] → search_students st query = []) ∧
    (2 ≤ (tokenize_names [query]).length →
      (∃ pair ∈ generate_ordered_pairs (tokenize_names [query]),
        fetch_by_pair st pair ≠ []) →
      (∀ y, y ∈ search_students st query ↔
        ∃ pair ∈ generate_ordered_pairs (tokenize_names [query]),
          y ∈ fetch_by_pair st pair) ∧
      ((search_students st query).map (fun s => s.doc_id)).Nodup) ∧
    (((tokenize_names [query]).length = 1 ∨
        ∀ pair ∈ generate_ordered_pairs (tokenize_names [query]),
          fetch_by_pair st pair = []) →
      tokenize_names [query] ≠ [] →
      (∀ y, y ∈ search_students st query ↔
        y ∈ fetch_all st ∧
          ((tokenize_names [query]).headD "" ∈ tokenize_names [y.stu.first_name] ∨
           (tokenize_names [query]).headD "" ∈ tokenize_names [y.stu.last_name])) ∧
      ((search_students st query).map (fun s => s.doc_id)).Nodup) := by
  have hTn : tokenize_names [normalize query] = tokenize_names [query] :=
    tokenize_normalize query
  have hs : SnapWF (load_students st) := load_snapWF hWF
  refine ⟨?_, ?_, ?_⟩
  · intro hT
    rw [search_students_eq, if_pos (by rw [hTn]; exact hT)]
  · intro hlen hex
    have hTne : tokenize_names [query] ≠ [] := by
      intro h; rw [h] at hlen; simp at hlen
    have hPD : pairDictOf st query =
        (generate_ordered_pairs (tokenize_names [query])).foldl
          (fun m pair => upsertAll m (fetch_by_pair st pair)) [] := by
      unfold pairDictOf
      rw [hTn, if_pos hlen]
    obtain ⟨hg, hknd, hmem⟩ := foldl_upsert_lists hs (fetch_by_pair st)
      (fun p => fetch_by_pair_subset st p)
      (generate_ordered_pairs (tokenize_names [query])) [] (goodDict_nil _) (by simp)
    have hfoundne : pairDictOf st query ≠ [] := by
      obtain ⟨pair, hp, hne⟩ := hex
      obtain ⟨x, hx⟩ := List.exists_mem_of_ne_nil _ hne
      intro hnil
      have hxm := (hmem x).mpr (Or.inr ⟨pair, hp, hx⟩)
      rw [← hPD, hnil] at hxm
      simp at hxm
    have hres : search_students st query = (pairDictOf st query).map (fun kv => kv.2) := by
      rw [search_students_eq, if_neg (by rw [hTn]; exact hTne),
        if_pos ⟨by rw [hTn]; exact hlen, hfoundne⟩]
    constructor
    · intro y
      rw [hres, hPD, hmem y]
      simp
    · rw [hres, hPD]
      exact values_ids_nodup hg hknd
  · intro hcase hTne
    have hPD0 : pairDictOf st query = [] := by
      rcases hcase with h1 | hall
      · unfold pairDictOf
        rw [hTn, if_neg (by omega)]
      · by_cases hlen : 2 ≤ (tokenize_names [query]).length
        · unfold pairDictOf
          rw [hTn, if_pos hlen]
          obtain ⟨hg, hknd, hmem⟩ := foldl_upsert_lists hs (fetch_by_pair st)
            (fun p => fetch_by_pair_subset st p)
            (generate_ordered_pairs (tokenize_names [query])) [] (goodDict_nil _) (by simp)
          rw [← values_empty_iff, List.eq_nil_iff_forall_not_mem]
          intro x hx
          rcases (hmem x).mp hx with h | ⟨p, hp, hxp⟩
          · simp at h
          · rw [hall p hp] at hxp
            simp at hxp
        · unfold pairDictOf
          rw [hTn, if_neg hlen]
    have hres : search_students st query = (scanDictOf st query).map (fun kv => kv.2) := by
      rw [search_students_eq, if_neg (by rw [hTn]; exact hTne),
        if_neg (by rintro ⟨_, h2⟩; exact h2 hPD0)]
    have hscan : scanDictOf st query = upsertAll []
        ((fetch_all st).filter (fun s =>
          (tokenize_names [normalize s.stu.first_name]).contains
            ((tokenize_names [normalize query]).headD "") ||
          (tokenize_names [normalize s.stu.last_name]).contains
            ((tokenize_names [normalize query]).headD ""))) := by
      unfold scanDictOf
      rw [hPD0, scan_fold_eq]
    obtain ⟨hg, hmem⟩ := upsertAll_good_and_mem hs
      ((fetch_all st).filter (fun s =>
        (tokenize_names [normalize s.stu.first_name]).contains
          ((tokenize_names [normalize query]).headD "") ||
        (tokenize_names [normalize s.stu.last_name]).contains
          ((tokenize_names [normalize query]).headD ""))) [] (goodDict_nil _)
      (fun t ht => (List.mem_filter.mp ht).1)
    constructor
    · intro y
      rw [hres, hscan, hmem y]
      simp only [List.map_nil, List.not_mem_nil, false_or, List.mem_filter]
      constructor
      · rintro ⟨hy, hb⟩
        refine ⟨hy, ?_⟩
        rw [Bool.or_eq_true] at hb
        rcases hb with hb | hb
        · left
          have hmem2 := List.elem_iff.mp hb
          rw [tokenize_normalize y.stu.first_name, hTn] at hmem2
          exact hmem2
        · right
          have hmem2 := List.elem_iff.mp hb
          rw [tokenize_normalize y.stu.last_name, hTn] at hmem2
          exact hmem2
      · rintro ⟨hy, hb⟩
        refine ⟨hy, ?_⟩
        rw [Bool.or_eq_true]
        rcases hb with hb | hb
        · left
          apply List.elem_iff.mpr
          rw [tokenize_normalize y.stu.first_name, hTn]
          exact hb
        · right
          apply List.elem_iff.mpr
          rw [tokenize_normalize y.stu.last_name, hTn]
          exact hb
    · rw [hres, hscan]
      exact values_ids_nodup hg (keys_upsertAll_nodup _ (by simp))

theorem C3_search_witness :
    StoreWF [("id1", johnStu)] ∧
    2 ≤ (tokenize_names ["John Doe"]).length ∧
    (∃ pair ∈ generate_ordered_pairs (tokenize_names ["John Doe"]),
      fetch_by_pair [("id1", johnStu)] pair ≠ []) ∧
    ((∀ y, y ∈ search_students [("id1", johnStu)] "John Doe" ↔
        ∃ pair ∈ generate_ordered_pairs (tokenize_names ["John Doe"]),
          y ∈ fetch_by_pair [("id1", johnStu)] pair) ∧
      ((search_students [("id1", johnStu)] "John Doe").map (fun s => s.doc_id)).Nodup) :=
  ⟨⟨by decide, by decide⟩, by decide, by decide,
    (C3_search_characterization [("id1", johnStu)] "John Doe" ⟨by decide, by decide⟩).2.1
      (by decide) (by decide)⟩

end CB